import Mathlib

/-!
Verification of the per-link resolver configuration bus methods
(`src/resolve/resolved-link-bus.c`) and the device-info attribute walk
(`src/udev/udevadm-info.c`), as a shallow embedding.

List helpers owned by `resolved-dns-server.c` / `resolved-dns-search-domain.c`
(mark, find, move-back-and-unmark, unlink) are not part of the excerpt; they
are modelled from the spec, with a doc comment noting so on each.
-/

namespace Resolved

/-- Tri-state outcome of the polkit authorization gate (`bus_verify_polkit_async`):
negative = denied (error), zero = pending (callback later), positive = granted. -/
inductive AuthResult
  | granted
  | denied
  | pending
deriving DecidableEq, Repr

/-- Bus-level error classes produced by the handlers. -/
inductive BusErr
  | busy
  | invalidArg
  | authDenied
  | parseError
  | resourceExhausted
deriving DecidableEq, Repr

/-- Result of a method call: reply sent, pending authorization, or error. -/
inductive CallResult
  | success
  | pending
  | err (e : BusErr)
deriving DecidableEq, Repr

/-- Best-effort side effects triggered after a committed mutation
(`link_allocate_scopes`, `link_add_rrs`, `link_save_user`,
`manager_write_resolv_conf`, `manager_send_changed`). -/
inductive SideEffect
  | allocateScopes
  | addRRs
  | saveUser
  | writeResolvConf
  | sendChanged
deriving DecidableEq, Repr

/-- A parsed DNS server address from the wire (`struct in_addr_full`):
family, address bytes, port, optional server name. -/
structure DnsAddr where
  family : Int
  address : List Nat
  port : Nat
  server_name : Option String
deriving DecidableEq, Repr

/-- A `DnsServer` entry of a link's server list: a value plus the transient
mark flag.  `id` models the identity of the C object (its allocation). -/
structure DnsServer where
  id : Nat
  family : Int
  address : List Nat
  port : Nat
  server_name : Option String
  marked : Bool
deriving DecidableEq, Repr

/-- A `DnsSearchDomain` entry of a link's search-domain list. -/
structure DnsSearchDomain where
  id : Nat
  name : String
  route_only : Bool
  marked : Bool
deriving DecidableEq, Repr

/-- `ResolveSupport` enum (no / yes / resolve). -/
inductive ResolveSupport
  | no
  | yes
  | resolve
deriving DecidableEq, Repr

/-- `DnsOverTlsMode` enum; `invalid` models `_DNS_OVER_TLS_MODE_INVALID`
(use the global default). -/
inductive DnsOverTlsMode
  | invalid
  | no
  | opportunistic
  | yes
deriving DecidableEq, Repr

/-- `DnssecMode` enum; `invalid` models `_DNSSEC_MODE_INVALID`
(use the global default). -/
inductive DnssecMode
  | invalid
  | no
  | allowDowngrade
  | yes
deriving DecidableEq, Repr

/-- The per-link state touched by the bus methods.  `loopback` models
`l->flags & IFF_LOOPBACK`, `is_managed` the external-manager flag.
`next_id` models the allocator: newly created entries receive fresh
identities.  `current_dns_server` is the externally held reference to the
currently selected server, by identity. -/
structure Link where
  loopback : Bool
  is_managed : Bool
  dns_servers : List DnsServer
  search_domains : List DnsSearchDomain
  dnssec_negative_trust_anchors : List String
  default_route : Int
  llmnr_support : ResolveSupport
  mdns_support : ResolveSupport
  dns_over_tls_mode : DnsOverTlsMode
  dnssec_mode : DnssecMode
  current_dns_server : Option Nat
  next_id : Nat
deriving DecidableEq, Repr

/-- Output of one handler invocation: the call result, the link state at
return, and the list of best-effort side effects triggered. -/
structure CallOut where
  result : CallResult
  link : Link
  effects : List SideEffect
deriving DecidableEq, Repr

/-- Match key of a DNS server used by the replace-set call: family, address
bytes and server name — the port is not part of the key. -/
def DnsServer.key (s : DnsServer) : Int × List Nat × Option String :=
  (s.family, s.address, s.server_name)

/-- Match key of a candidate address (family, address bytes, server name). -/
def DnsAddr.key (c : DnsAddr) : Int × List Nat × Option String :=
  (c.family, c.address, c.server_name)

/-- Modelled from the spec: `dns_server_mark_all` (resolved-dns-server.c, not
in the excerpt) — §4.3 mark phase, "set the transient mark on every entry
currently in L". -/
def dns_server_mark_all (l : List DnsServer) : List DnsServer :=
  l.map fun s => { s with marked := true }

/-- Modelled from the spec: `dns_server_find` (resolved-dns-server.c, not in
the excerpt) — §4.2: returns the first existing entry matching the candidate
key; "for DNS servers, the replace-set call matches ignoring the port field",
so the match requires family, address bytes and server name to agree. -/
def dns_server_find (l : List DnsServer) (family : Int) (address : List Nat)
    (server_name : Option String) : Option DnsServer :=
  l.find? fun s => s.family == family && s.address == address && s.server_name == server_name

/-- Modelled from the spec: `dns_server_move_back_and_unmark`
(resolved-dns-server.c, not in the excerpt) — clears the transient mark of the
matched entry and moves it to the back of the list. -/
def dns_server_move_back_and_unmark (l : List DnsServer) (s : DnsServer) : List DnsServer :=
  l.filter (fun t => t.id != s.id) ++ [{ s with marked := false }]

/-- Modelled from the spec: `dns_server_unlink_marked` (resolved-dns-server.c,
not in the excerpt) — §4.3 sweep phase, "remove every entry in L that is still
marked". -/
def dns_server_unlink_marked (l : List DnsServer) : List DnsServer :=
  l.filter fun s => !s.marked

/-- Modelled from the spec: unlinking a server drops any externally held
"currently selected server" reference to it (§4.3: identity preservation is
what keeps such references valid); the reference survives exactly when the
referenced entry is still in the list. -/
def update_current (current : Option Nat) (l : List DnsServer) : Option Nat :=
  match current with
  | none => none
  | some i => if l.any (fun s => s.id == i) then some i else none

/-- A freshly constructed `DnsServer` (`dns_server_new`): the candidate's
fields, unmarked, with the next free identity. -/
def mkNewServer (nid : Nat) (c : DnsAddr) : DnsServer :=
  { id := nid, family := c.family, address := c.address, port := c.port,
    server_name := c.server_name, marked := false }

/-- Reconcile phase of `bus_link_method_set_dns_servers_internal` (the loop at
lines 284–298): for each candidate, either unmark-and-move-back the existing
match, or create a new entry at the end of the list.  `allocOk i` models
whether the allocation for the `i`-th candidate succeeds (`dns_server_new`);
an allocation failure aborts the loop (`none`). -/
def dns_servers_reconcile (allocOk : Nat → Bool) :
    List DnsServer → List DnsAddr → Nat → Nat → Option (List DnsServer × Nat)
  | l, [], nid, _ => some (l, nid)
  | l, c :: rest, nid, i =>
    match dns_server_find l c.family c.address c.server_name with
    | some s => dns_servers_reconcile allocOk (dns_server_move_back_and_unmark l s) rest nid (i + 1)
    | none =>
      if allocOk i then
        dns_servers_reconcile allocOk (l ++ [mkNewServer nid c]) rest (nid + 1) (i + 1)
      else none

/-- `verify_unmanaged_link`: a loopback or externally managed link is busy. -/
def verify_unmanaged_link (l : Link) : Bool :=
  l.loopback || l.is_managed

/-- `bus_link_method_set_dns_servers_internal` (covers both `SetDNS` and
`SetDNSEx`): eligibility check first, then parse (`msg = none` models a
malformed body), then the polkit gate, then mark / reconcile / sweep; an
allocation failure during reconciliation unlinks the whole list. -/
def bus_link_method_set_dns_servers_internal (allocOk : Nat → Bool) (auth : AuthResult)
    (msg : Option (List DnsAddr)) (l : Link) : CallOut :=
  if verify_unmanaged_link l then ⟨.err .busy, l, []⟩
  else match msg with
  | none => ⟨.err .parseError, l, []⟩
  | some dns =>
    match auth with
    | .denied => ⟨.err .authDenied, l, []⟩
    | .pending => ⟨.pending, l, []⟩
    | .granted =>
      match dns_servers_reconcile allocOk (dns_server_mark_all l.dns_servers) dns l.next_id 0 with
      | none =>
        ⟨.err .resourceExhausted,
         { l with dns_servers := [], current_dns_server := update_current l.current_dns_server [] },
         []⟩
      | some (l2, nid) =>
        let final := dns_server_unlink_marked l2
        ⟨.success,
         { l with dns_servers := final, next_id := nid,
                  current_dns_server := update_current l.current_dns_server final },
         [.allocateScopes, .saveUser, .writeResolvConf, .sendChanged]⟩

/-- Modelled from the spec: `dns_search_domain_mark_all` (not in the excerpt)
— §4.3 mark phase for search domains. -/
def dns_search_domain_mark_all (l : List DnsSearchDomain) : List DnsSearchDomain :=
  l.map fun d => { d with marked := true }

/-- Modelled from the spec: `dns_search_domain_find` (not in the excerpt) —
§4.2: the search-domain key is the domain name. -/
def dns_search_domain_find (l : List DnsSearchDomain) (name : String) : Option DnsSearchDomain :=
  l.find? fun d => d.name == name

/-- Modelled from the spec: `dns_search_domain_move_back_and_unmark` (not in
the excerpt) — clears the mark and moves the entry to the back. -/
def dns_search_domain_move_back_and_unmark (l : List DnsSearchDomain) (d : DnsSearchDomain) :
    List DnsSearchDomain :=
  l.filter (fun t => t.id != d.id) ++ [{ d with marked := false }]

/-- Modelled from the spec: `dns_search_domain_unlink_marked` (not in the
excerpt) — §4.3 sweep phase for search domains. -/
def dns_search_domain_unlink_marked (l : List DnsSearchDomain) : List DnsSearchDomain :=
  l.filter fun d => !d.marked

/-- Validation loop of `bus_link_method_set_domains` (lines 340–357), over the
already-decoded batch.  `validName` models the external `dns_name_is_valid`
and `isRoot` the external `dns_name_is_root`; an entry fails if its name is
invalid, or if it is the root domain and not route-only. -/
def set_domains_validate (validName isRoot : String → Bool) : List (String × Bool) → Bool
  | [] => true
  | (name, ro) :: rest =>
    if !validName name then false
    else if !ro && isRoot name then false
    else set_domains_validate validName isRoot rest

/-- A freshly constructed `DnsSearchDomain` (`dns_search_domain_new`): the
candidate's name, unmarked, with the next free identity (its `route_only`
field is then set from the candidate, line 397). -/
def mkNewDomain (nid : Nat) (name : String) (ro : Bool) : DnsSearchDomain :=
  { id := nid, name := name, route_only := ro, marked := false }

/-- Reconcile loop of `bus_link_method_set_domains` (lines 374–398): find or
create each candidate, updating `route_only` in place in both cases;
`allocOk i` models whether `dns_search_domain_new` succeeds for the `i`-th
candidate. -/
def search_domains_reconcile (allocOk : Nat → Bool) :
    List DnsSearchDomain → List (String × Bool) → Nat → Nat → Option (List DnsSearchDomain × Nat)
  | l, [], nid, _ => some (l, nid)
  | l, (name, ro) :: rest, nid, i =>
    match dns_search_domain_find l name with
    | some d =>
      search_domains_reconcile allocOk
        (dns_search_domain_move_back_and_unmark l { d with route_only := ro }) rest nid (i + 1)
    | none =>
      if allocOk i then
        search_domains_reconcile allocOk (l ++ [mkNewDomain nid name ro]) rest (nid + 1) (i + 1)
      else none

/-- `bus_link_method_set_domains`: eligibility check first, then decode
(`msg = none` models a malformed body), then validation of the whole batch,
then the polkit gate, then mark / reconcile / sweep; any failure inside the
reconcile loop unlinks the whole search-domain list (the `clear` label). -/
def bus_link_method_set_domains (validName isRoot : String → Bool) (allocOk : Nat → Bool)
    (auth : AuthResult) (msg : Option (List (String × Bool))) (l : Link) : CallOut :=
  if verify_unmanaged_link l then ⟨.err .busy, l, []⟩
  else match msg with
  | none => ⟨.err .parseError, l, []⟩
  | some ds =>
    if !set_domains_validate validName isRoot ds then ⟨.err .invalidArg, l, []⟩
    else match auth with
    | .denied => ⟨.err .authDenied, l, []⟩
    | .pending => ⟨.pending, l, []⟩
    | .granted =>
      match search_domains_reconcile allocOk (dns_search_domain_mark_all l.search_domains) ds
          l.next_id 0 with
      | none => ⟨.err .resourceExhausted, { l with search_domains := [] }, []⟩
      | some (l2, nid) =>
        ⟨.success,
         { l with search_domains := dns_search_domain_unlink_marked l2, next_id := nid },
         [.saveUser, .writeResolvConf]⟩

/-- `bus_link_method_set_default_route`: eligibility, parse, gate; the value
is applied — and the side effects triggered — only if it differs from the
currently configured value (lines 440–445). -/
def bus_link_method_set_default_route (auth : AuthResult) (msg : Option Bool) (l : Link) :
    CallOut :=
  if verify_unmanaged_link l then ⟨.err .busy, l, []⟩
  else match msg with
  | none => ⟨.err .parseError, l, []⟩
  | some b =>
    match auth with
    | .denied => ⟨.err .authDenied, l, []⟩
    | .pending => ⟨.pending, l, []⟩
    | .granted =>
      let b' : Int := if b then 1 else 0
      if l.default_route ≠ b' then
        ⟨.success, { l with default_route := b' }, [.saveUser, .writeResolvConf]⟩
      else ⟨.success, l, []⟩

/-- Modelled from the spec: `resolve_support_from_string` (string-table lookup,
not in the excerpt) — parses the LLMNR / MulticastDNS enum. -/
def resolve_support_from_string (s : String) : Option ResolveSupport :=
  if s == "yes" then some .yes
  else if s == "no" then some .no
  else if s == "resolve" then some .resolve
  else none

/-- `bus_link_method_set_llmnr`: empty string maps to `yes`; the mode is
stored unconditionally and scopes are reallocated, RRs re-announced and the
link state saved on every granted call (lines 484–488). -/
def bus_link_method_set_llmnr (auth : AuthResult) (msg : Option String) (l : Link) : CallOut :=
  if verify_unmanaged_link l then ⟨.err .busy, l, []⟩
  else match msg with
  | none => ⟨.err .parseError, l, []⟩
  | some s =>
    match (if s == "" then some ResolveSupport.yes else resolve_support_from_string s) with
    | none => ⟨.err .invalidArg, l, []⟩
    | some mode =>
      match auth with
      | .denied => ⟨.err .authDenied, l, []⟩
      | .pending => ⟨.pending, l, []⟩
      | .granted =>
        ⟨.success, { l with llmnr_support := mode }, [.allocateScopes, .addRRs, .saveUser]⟩

/-- `bus_link_method_set_mdns`: empty string maps to `no`; otherwise
identical in structure to the LLMNR setter (lines 527–531). -/
def bus_link_method_set_mdns (auth : AuthResult) (msg : Option String) (l : Link) : CallOut :=
  if verify_unmanaged_link l then ⟨.err .busy, l, []⟩
  else match msg with
  | none => ⟨.err .parseError, l, []⟩
  | some s =>
    match (if s == "" then some ResolveSupport.no else resolve_support_from_string s) with
    | none => ⟨.err .invalidArg, l, []⟩
    | some mode =>
      match auth with
      | .denied => ⟨.err .authDenied, l, []⟩
      | .pending => ⟨.pending, l, []⟩
      | .granted =>
        ⟨.success, { l with mdns_support := mode }, [.allocateScopes, .addRRs, .saveUser]⟩

/-- Modelled from the spec: `dns_over_tls_mode_from_string` (string-table
lookup, not in the excerpt). -/
def dns_over_tls_mode_from_string (s : String) : Option DnsOverTlsMode :=
  if s == "no" then some .no
  else if s == "opportunistic" then some .opportunistic
  else if s == "yes" then some .yes
  else none

/-- `bus_link_method_set_dns_over_tls`: empty string maps to the invalid mode
(use the global default); the link state is saved on every granted call
(line 572). -/
def bus_link_method_set_dns_over_tls (auth : AuthResult) (msg : Option String) (l : Link) :
    CallOut :=
  if verify_unmanaged_link l then ⟨.err .busy, l, []⟩
  else match msg with
  | none => ⟨.err .parseError, l, []⟩
  | some s =>
    match (if s == "" then some DnsOverTlsMode.invalid else dns_over_tls_mode_from_string s) with
    | none => ⟨.err .invalidArg, l, []⟩
    | some mode =>
      match auth with
      | .denied => ⟨.err .authDenied, l, []⟩
      | .pending => ⟨.pending, l, []⟩
      | .granted => ⟨.success, { l with dns_over_tls_mode := mode }, [.saveUser]⟩

/-- Modelled from the spec: `dnssec_mode_from_string` (string-table lookup,
not in the excerpt). -/
def dnssec_mode_from_string (s : String) : Option DnssecMode :=
  if s == "no" then some .no
  else if s == "allow-downgrade" then some .allowDowngrade
  else if s == "yes" then some .yes
  else none

/-- `bus_link_method_set_dnssec`: empty string maps to the invalid mode (use
the global default); the link state is saved on every granted call
(line 613). -/
def bus_link_method_set_dnssec (auth : AuthResult) (msg : Option String) (l : Link) : CallOut :=
  if verify_unmanaged_link l then ⟨.err .busy, l, []⟩
  else match msg with
  | none => ⟨.err .parseError, l, []⟩
  | some s =>
    match (if s == "" then some DnssecMode.invalid else dnssec_mode_from_string s) with
    | none => ⟨.err .invalidArg, l, []⟩
    | some mode =>
      match auth with
      | .denied => ⟨.err .authDenied, l, []⟩
      | .pending => ⟨.pending, l, []⟩
      | .granted => ⟨.success, { l with dnssec_mode := mode }, [.saveUser]⟩

/-- Validation loop of `bus_link_method_set_dnssec_negative_trust_anchors`
(lines 640–651): every entry must be a valid domain name. -/
def nta_validate (validName : String → Bool) : List String → Bool
  | [] => true
  | n :: rest => if !validName n then false else nta_validate validName rest

/-- `bus_link_method_set_dnssec_negative_trust_anchors`: eligibility first,
then decode and validate; on grant the whole set is replaced in one step
(set semantics: duplicates collapse). -/
def bus_link_method_set_dnssec_negative_trust_anchors (validName : String → Bool)
    (auth : AuthResult) (msg : Option (List String)) (l : Link) : CallOut :=
  if verify_unmanaged_link l then ⟨.err .busy, l, []⟩
  else match msg with
  | none => ⟨.err .parseError, l, []⟩
  | some ntas =>
    if !nta_validate validName ntas then ⟨.err .invalidArg, l, []⟩
    else match auth with
    | .denied => ⟨.err .authDenied, l, []⟩
    | .pending => ⟨.pending, l, []⟩
    | .granted =>
      ⟨.success, { l with dnssec_negative_trust_anchors := ntas.dedup }, [.saveUser]⟩

/-- Modelled from the spec: `link_flush_settings` (not in the excerpt) —
"discards all link-specific overrides, restoring defaults": both lists are
emptied, the trust-anchor set cleared, and the scalar settings reset. -/
def link_flush_settings (l : Link) : Link :=
  { l with dns_servers := [], search_domains := [], dnssec_negative_trust_anchors := [],
           default_route := -1, llmnr_support := .yes, mdns_support := .no,
           dns_over_tls_mode := .invalid, dnssec_mode := .invalid,
           current_dns_server := none }

/-- `bus_link_method_revert`: eligibility, gate, then flush all overrides and
trigger the full set of side effects (lines 690–696). -/
def bus_link_method_revert (auth : AuthResult) (l : Link) : CallOut :=
  if verify_unmanaged_link l then ⟨.err .busy, l, []⟩
  else match auth with
  | .denied => ⟨.err .authDenied, l, []⟩
  | .pending => ⟨.pending, l, []⟩
  | .granted =>
    ⟨.success, link_flush_settings l,
     [.allocateScopes, .addRRs, .saveUser, .writeResolvConf, .sendChanged]⟩

/-- The identities of a server list's entries. -/
def serverIds (l : List DnsServer) : List Nat := l.map fun s => s.id

/-- The match keys of a server list's entries. -/
def serverKeys (l : List DnsServer) : List (Int × List Nat × Option String) :=
  l.map DnsServer.key

/-- The match keys of a candidate list. -/
def candKeys (C : List DnsAddr) : List (Int × List Nat × Option String) :=
  C.map DnsAddr.key

/-- Number of occurrences of a match key in a key list. -/
def keyCount (k : Int × List Nat × Option String)
    (l : List (Int × List Nat × Option String)) : Nat :=
  l.countP (fun x => decide (x = k))

/-- The identities of a search-domain list's entries. -/
def domainIds (l : List DnsSearchDomain) : List Nat := l.map fun d => d.id

/-- The observable name / route-only pairs of a search-domain list. -/
def domainPairs (l : List DnsSearchDomain) : List (String × Bool) :=
  l.map fun d => (d.name, d.route_only)

/-- Concrete sample server for witnesses. -/
def demoServer : DnsServer := ⟨0, 2, [1, 1, 1, 1], 53, none, false⟩

/-- Concrete sample search domain for witnesses. -/
def demoDomain : DnsSearchDomain := ⟨0, "a.example", false, false⟩

/-- Concrete eligible link for witnesses. -/
def demoLink : Link :=
  ⟨false, false, [demoServer], [demoDomain], [], -1, .yes, .no, .invalid, .invalid, some 0, 1⟩

/-- Concrete loopback link for witnesses. -/
def demoBusyLink : Link := { demoLink with loopback := true }

/-- Candidate with a fresh key (forces a creation). -/
def demoAddr : DnsAddr := ⟨2, [9, 9, 9, 9], 53, none⟩

/-- Candidate matching `demoServer` on family, address and name but carrying a
different port. -/
def demoAddr2 : DnsAddr := ⟨2, [1, 1, 1, 1], 853, none⟩

/-- Concrete domain-name validity oracle for witnesses. -/
def demoValidName : String → Bool := fun s => !(s == "") && !(s == "..")

/-- Concrete root-domain oracle for witnesses. -/
def demoIsRoot : String → Bool := fun s => s == "."

/-- Both per-link lists carry no marked entry. -/
def Link.listsUnmarked (l : Link) : Prop :=
  (∀ e ∈ l.dns_servers, e.marked = false) ∧ ∀ e ∈ l.search_domains, e.marked = false

end Resolved

namespace UdevadmInfo

/-- Outcome of `sd_device_get_sysattr_value` for one attribute: a value, a
permission error (`-EPERM`), or any other error. -/
inductive AttrRead
  | ok (value : String)
  | eperm
  | readError
deriving DecidableEq, Repr

/-- `skip_attribute` (lines 49–59): the fixed exclusion set of attribute
names. -/
def skip_attribute (name : String) : Bool :=
  name == "uevent" || name == "dev" || name == "modalias" || name == "resource" ||
  name == "driver" || name == "subsystem" || name == "module"

/-- `isprint` in the C locale: the printable ASCII range `0x20`–`0x7e`. -/
def c_isprint (c : Char) : Bool :=
  0x20 ≤ c.toNat && c.toNat ≤ 0x7e

/-- The backwards scan of `print_all_attributes` (lines 107–111):
`len = strlen(value); while (len > 0 && isprint(value[len-1])) len--;`
computes the length of the value with its maximal printable suffix removed;
the attribute is kept only when this reaches zero. -/
def nonprintable_scan_len (v : List Char) : Nat :=
  (v.reverse.dropWhile c_isprint).length

/-- Value filter of `print_all_attributes` (lines 101–111): skip values that
look like a path (leading `/`), and skip values whose backwards printable
scan does not consume everything. -/
def keep_value (v : String) : Option String :=
  if v.data.head? == some '/' then none
  else if nonprintable_scan_len v.data != 0 then none
  else some v

/-- Collection loop of `print_all_attributes` (lines 94–126): skip excluded
names; keep readable values passing the filter; render `-EPERM` as
`"(write-only)"`; drop attributes failing to read otherwise. -/
def collect_attrs : List (String × AttrRead) → List (String × String)
  | [] => []
  | (name, AttrRead.ok v) :: rest =>
    if skip_attribute name then collect_attrs rest
    else
      match keep_value v with
      | none => collect_attrs rest
      | some v' => (name, v') :: collect_attrs rest
  | (name, AttrRead.eperm) :: rest =>
    if skip_attribute name then collect_attrs rest
    else (name, "(write-only)") :: collect_attrs rest
  | (_, AttrRead.readError) :: rest => collect_attrs rest

/-- Name order used by `sysattr_compare` (strcmp on the attribute name). -/
def attrLe (a b : String × String) : Prop :=
  a.1 ≤ b.1

instance : DecidableRel attrLe := fun a b =>
  inferInstanceAs (Decidable (a.1 ≤ b.1))

instance : IsTotal (String × String) attrLe :=
  ⟨fun a b => le_total a.1 b.1⟩

instance : IsTrans (String × String) attrLe :=
  ⟨fun _ _ _ h1 h2 => le_trans h1 h2⟩

/-- `print_all_attributes` (lines 72–136), restricted to the attribute table
it prints: the collected name/value pairs, sorted by name
(`typesafe_qsort(sysattrs, n_items, sysattr_compare)`). -/
def print_all_attributes (attrs : List (String × AttrRead)) : List (String × String) :=
  List.insertionSort attrLe (collect_attrs attrs)

end UdevadmInfo

namespace Resolved







theorem serverIds_append (p s : List DnsServer) :
    serverIds (p ++ s) = serverIds p ++ serverIds s := by
  simp [serverIds]

theorem serverKeys_append (p s : List DnsServer) :
    serverKeys (p ++ s) = serverKeys p ++ serverKeys s := by
  simp [serverKeys]

theorem mark_all_ids (l : List DnsServer) : serverIds (dns_server_mark_all l) = serverIds l := by
  simp [serverIds, dns_server_mark_all]

theorem mark_all_keys (l : List DnsServer) :
    serverKeys (dns_server_mark_all l) = serverKeys l := by
  simp [serverKeys, dns_server_mark_all, DnsServer.key]

theorem mark_all_marked (l : List DnsServer) :
    ∀ e ∈ dns_server_mark_all l, e.marked = true := by
  intro e he
  simp only [dns_server_mark_all, List.mem_map] at he
  obtain ⟨x, _, rfl⟩ := he
  rfl

theorem unlink_marked_unmarked (l : List DnsServer) :
    ∀ e ∈ dns_server_unlink_marked l, e.marked = false := by
  intro e he
  simp only [dns_server_unlink_marked, List.mem_filter, Bool.not_eq_true'] at he
  exact he.2

theorem unlink_marked_split (p s : List DnsServer)
    (hp : ∀ e ∈ p, e.marked = true) (hs : ∀ e ∈ s, e.marked = false) :
    dns_server_unlink_marked (p ++ s) = s := by
  simp only [dns_server_unlink_marked, List.filter_append]
  rw [List.filter_eq_nil_iff.mpr, List.filter_eq_self.mpr, List.nil_append]
  · intro e he; simp [hs e he]
  · intro e he; simp [hp e he]

theorem ids_injective {p : List DnsServer} (hn : (serverIds p).Nodup) {e x : DnsServer}
    (he : e ∈ p) (hx : x ∈ p) (hid : x.id = e.id) : x = e :=
  List.inj_on_of_nodup_map hn hx he hid

theorem filter_ne_of_disjoint {s : List DnsServer} {i : Nat} (h : ∀ x ∈ s, x.id ≠ i) :
    s.filter (fun t => t.id != i) = s := by
  apply List.filter_eq_self.mpr
  intro a ha
  simpa using h a ha

theorem filter_remove_perm {p : List DnsServer} {e : DnsServer} (he : e ∈ p)
    (hn : (serverIds p).Nodup) :
    p.Perm (e :: p.filter (fun t => t.id != e.id)) := by
  induction p with
  | nil => cases he
  | cons a q ih =>
    simp only [serverIds, List.map_cons, List.nodup_cons] at hn
    rcases List.mem_cons.mp he with rfl | he'
    · have hq : q.filter (fun t => t.id != e.id) = q := by
        apply filter_ne_of_disjoint
        intro x hx hxe
        exact hn.1 (hxe ▸ List.mem_map.mpr ⟨x, hx, rfl⟩)
      simp [List.filter_cons, hq]
    · have hae : a.id ≠ e.id := by
        intro hc
        exact hn.1 (hc ▸ List.mem_map.mpr ⟨e, he', rfl⟩)
      have hf : (a :: q).filter (fun t => t.id != e.id) =
          a :: q.filter (fun t => t.id != e.id) := by
        simp [List.filter_cons, hae]
      rw [hf]
      exact ((ih he' hn.2).cons a).trans (List.Perm.swap e a _)

theorem find_pred_iff (c : DnsAddr) (s : DnsServer) :
    (s.family == c.family && s.address == c.address && s.server_name == c.server_name) = true ↔
      s.key = c.key := by
  simp [DnsServer.key, DnsAddr.key, Bool.and_eq_true, Prod.ext_iff, and_assoc]

theorem dns_server_find_some {l : List DnsServer} {c : DnsAddr} {e : DnsServer}
    (h : dns_server_find l c.family c.address c.server_name = some e) :
    e ∈ l ∧ e.key = c.key := by
  simp only [dns_server_find] at h
  refine ⟨List.mem_of_find?_eq_some h, ?_⟩
  have hp := List.find?_some h
  exact (find_pred_iff c e).mp (by simpa using hp)

theorem dns_server_find_none {l : List DnsServer} {c : DnsAddr}
    (h : dns_server_find l c.family c.address c.server_name = none) :
    ∀ e ∈ l, e.key ≠ c.key := by
  simp only [dns_server_find] at h
  intro e he
  have := List.find?_eq_none.mp h e he
  intro hk
  exact this ((find_pred_iff c e).mpr hk)

theorem dns_server_find_isSome {l : List DnsServer} {c : DnsAddr}
    (h : c.key ∈ serverKeys l) :
    ∃ e, dns_server_find l c.family c.address c.server_name = some e := by
  simp only [serverKeys, List.mem_map] at h
  obtain ⟨x, hx, hk⟩ := h
  have : (l.find? fun s =>
      s.family == c.family && s.address == c.address && s.server_name == c.server_name).isSome :=
    List.find?_isSome.mpr ⟨x, hx, (find_pred_iff c x).mpr hk⟩
  exact Option.isSome_iff_exists.mp this

theorem unmark_eq_self {e : DnsServer} (h : e.marked = false) :
    { e with marked := false } = e := by
  cases e
  simp_all

theorem nodup_parts {p s : List DnsServer} (hn : (serverIds (p ++ s)).Nodup) :
    (serverIds p).Nodup ∧ (serverIds s).Nodup ∧ ∀ x ∈ p, ∀ y ∈ s, x.id ≠ y.id := by
  rw [serverIds_append, List.nodup_append] at hn
  refine ⟨hn.1, hn.2.1, ?_⟩
  intro x hx y hy hxy
  exact hn.2.2 (List.mem_map.mpr ⟨x, hx, rfl⟩) (hxy ▸ List.mem_map.mpr ⟨y, hy, rfl⟩)

theorem perm_reassemble {α : Type} {a : α} {P₁ P S : List α} (h : P.Perm (a :: P₁)) :
    (P₁ ++ (S ++ [a])).Perm (P ++ S) := by
  have h1 : (P₁ ++ (S ++ [a])) = (P₁ ++ S) ++ [a] := by simp
  rw [h1]
  exact (List.perm_append_singleton a (P₁ ++ S)).trans (h.symm.append_right S)

theorem move_eq_left {p s : List DnsServer} {e : DnsServer} (he : e ∈ p)
    (hdisj : ∀ x ∈ p, ∀ y ∈ s, x.id ≠ y.id) :
    dns_server_move_back_and_unmark (p ++ s) e =
      p.filter (fun t => t.id != e.id) ++ (s ++ [{ e with marked := false }]) := by
  simp only [dns_server_move_back_and_unmark, List.filter_append]
  rw [filter_ne_of_disjoint (fun y hy => (hdisj e he y hy).symm), List.append_assoc]

theorem move_eq_right {p s : List DnsServer} {e : DnsServer} (he : e ∈ s)
    (hdisj : ∀ x ∈ p, ∀ y ∈ s, x.id ≠ y.id) (hm : e.marked = false) :
    dns_server_move_back_and_unmark (p ++ s) e =
      p ++ (s.filter (fun t => t.id != e.id) ++ [e]) := by
  simp only [dns_server_move_back_and_unmark, List.filter_append]
  rw [filter_ne_of_disjoint (fun x hx => hdisj x hx e he), List.append_assoc,
    unmark_eq_self hm]

theorem serverKeys_snoc (s : List DnsServer) (x : DnsServer) :
    serverKeys (s ++ [x]) = serverKeys s ++ [x.key] := by
  simp [serverKeys]

theorem candKeys_cons (c : DnsAddr) (C : List DnsAddr) :
    candKeys (c :: C) = [c.key] ++ candKeys C := by
  simp [candKeys]

theorem mkNewServer_key (nid : Nat) (c : DnsAddr) : (mkNewServer nid c).key = c.key := rfl



theorem keyCount_append (k : Int × List Nat × Option String)
    (a b : List (Int × List Nat × Option String)) :
    keyCount k (a ++ b) = keyCount k a + keyCount k b := by
  simp [keyCount, List.countP_append]

theorem keyCount_perm {a b : List (Int × List Nat × Option String)} (h : a.Perm b)
    (k : Int × List Nat × Option String) : keyCount k a = keyCount k b :=
  h.countP_eq _

theorem keyCount_pos_of_mem {x : Int × List Nat × Option String}
    {l : List (Int × List Nat × Option String)} (h : x ∈ l) : 0 < keyCount x l := by
  rw [keyCount, List.countP_pos_iff]
  exact ⟨x, h, by simp⟩

/-- Invariants of the reconcile loop, for a list split into a marked part `p`
and an unmarked part `s`: if the loop succeeds, the result splits the same
way, identities stay unique and bounded by the allocation counter, every key
of the final unmarked part is accounted for by the initial unmarked part or a
candidate, every candidate key is present in the final unmarked part, and
unmarked entries persist. -/
theorem reconcile_master1 (allocOk : Nat → Bool) :
    ∀ (C : List DnsAddr) (p s : List DnsServer) (nid i : Nat) (l' : List DnsServer) (nid' : Nat),
    dns_servers_reconcile allocOk (p ++ s) C nid i = some (l', nid') →
    (∀ e ∈ p, e.marked = true) →
    (∀ e ∈ s, e.marked = false) →
    (serverIds (p ++ s)).Nodup →
    (∀ e ∈ p ++ s, e.id < nid) →
    ∃ p' s', l' = p' ++ s' ∧
      (∀ e ∈ p', e.marked = true) ∧
      (∀ e ∈ s', e.marked = false) ∧
      (serverIds l').Nodup ∧
      (∀ e ∈ l', e.id < nid') ∧
      (∀ k, keyCount k (serverKeys s') ≤ keyCount k (serverKeys s) + keyCount k (candKeys C)) ∧
      (∀ c ∈ C, c.key ∈ serverKeys s') ∧
      (∀ e ∈ s, e ∈ s') ∧
      nid ≤ nid' := by
  intro C
  induction C with
  | nil =>
    intro p s nid i l' nid' hrec hp hs hn hb
    simp only [dns_servers_reconcile, Option.some.injEq, Prod.mk.injEq] at hrec
    obtain ⟨rfl, rfl⟩ := hrec
    exact ⟨p, s, rfl, hp, hs, hn, hb, fun k => by simp [candKeys],
      by simp, fun e he => he, le_refl _⟩
  | cons c rest ih =>
    intro p s nid i l' nid' hrec hp hs hn hb
    obtain ⟨hnp, hns, hdisj⟩ := nodup_parts hn
    cases hf : dns_server_find (p ++ s) c.family c.address c.server_name with
    | some e =>
      simp only [dns_servers_reconcile, hf] at hrec
      obtain ⟨he, hkey⟩ := dns_server_find_some hf
      rcases List.mem_append.mp he with hep | hes
      · -- the match is a still-marked entry of `p`
        rw [move_eq_left hep hdisj] at hrec
        set e' : DnsServer := { e with marked := false } with he'
        set p₁ := p.filter (fun t => t.id != e.id) with hp₁def
        have hidsperm : (serverIds (p₁ ++ (s ++ [e']))).Perm (serverIds (p ++ s)) := by
          have hpe : (serverIds p).Perm (e.id :: serverIds p₁) := by
            have := (filter_remove_perm hep hnp).map (fun t => t.id)
            simpa [serverIds, hp₁def] using this
          have : (serverIds p₁ ++ (serverIds s ++ [e.id])).Perm
              (serverIds p ++ serverIds s) := perm_reassemble hpe
          simpa [serverIds_append, serverIds] using this
        have hn₁ : (serverIds (p₁ ++ (s ++ [e']))).Nodup := hidsperm.nodup_iff.mpr hn
        have hb₁ : ∀ x ∈ p₁ ++ (s ++ [e']), x.id < nid := by
          intro x hx
          rcases List.mem_append.mp hx with hx1 | hx2
          · exact hb x (List.mem_append.mpr (Or.inl (List.mem_of_mem_filter hx1)))
          · rcases List.mem_append.mp hx2 with hx3 | hx4
            · exact hb x (List.mem_append.mpr (Or.inr hx3))
            · rcases List.mem_singleton.mp hx4 with rfl
              exact hb e (List.mem_append.mpr (Or.inl hep))
        obtain ⟨p', s', hl', hp', hs', hn', hb', hcount, hsat, hpers, hle⟩ :=
          ih p₁ (s ++ [e']) nid (i + 1) l' nid' hrec
            (fun x hx => hp x (List.mem_of_mem_filter hx))
            (by
              intro x hx
              rcases List.mem_append.mp hx with hx1 | hx2
              · exact hs x hx1
              · rcases List.mem_singleton.mp hx2 with rfl; rfl)
            hn₁ hb₁
        refine ⟨p', s', hl', hp', hs', hn', hb', ?_, ?_, ?_, hle⟩
        · intro k
          have h1 := hcount k
          have hke : e'.key = c.key := hkey
          rw [serverKeys_snoc, hke, keyCount_append] at h1
          rw [candKeys_cons, keyCount_append]
          omega
        · intro c' hc'
          rcases List.mem_cons.mp hc' with rfl | hc''
          · have hmem : e' ∈ s' :=
              hpers e' (List.mem_append.mpr (Or.inr (List.mem_singleton.mpr rfl)))
            rw [← hkey]
            exact List.mem_map.mpr ⟨e', hmem, rfl⟩
          · exact hsat c' hc''
        · intro x hx
          exact hpers x (List.mem_append.mpr (Or.inl hx))
      · -- the match is an already-unmarked entry of `s`
        have hme : e.marked = false := hs e hes
        rw [move_eq_right hes hdisj hme] at hrec
        set s₁ := s.filter (fun t => t.id != e.id) with hs₁def
        have hsperm : s.Perm (e :: s₁) := filter_remove_perm hes hns
        have hidsperm : (serverIds (p ++ (s₁ ++ [e]))).Perm (serverIds (p ++ s)) := by
          have hin : (serverIds (s₁ ++ [e])).Perm (serverIds s) := by
            have h1 : (serverIds s).Perm (e.id :: serverIds s₁) := by
              have := hsperm.map (fun t => t.id)
              simpa [serverIds] using this
            have h2 : (serverIds s₁ ++ [e.id]).Perm (e.id :: serverIds s₁) :=
              List.perm_append_singleton _ _
            simpa [serverIds_append, serverIds] using h2.trans h1.symm
          simpa [serverIds_append] using hin.append_left (serverIds p)
        have hn₁ : (serverIds (p ++ (s₁ ++ [e]))).Nodup := hidsperm.nodup_iff.mpr hn
        have hb₁ : ∀ x ∈ p ++ (s₁ ++ [e]), x.id < nid := by
          intro x hx
          rcases List.mem_append.mp hx with hx1 | hx2
          · exact hb x (List.mem_append.mpr (Or.inl hx1))
          · rcases List.mem_append.mp hx2 with hx3 | hx4
            · exact hb x (List.mem_append.mpr (Or.inr (List.mem_of_mem_filter hx3)))
            · have hxe := List.mem_singleton.mp hx4
              rw [hxe]
              exact hb e (List.mem_append.mpr (Or.inr hes))
        obtain ⟨p', s', hl', hp', hs', hn', hb', hcount, hsat, hpers, hle⟩ :=
          ih p (s₁ ++ [e]) nid (i + 1) l' nid' hrec hp
            (by
              intro x hx
              rcases List.mem_append.mp hx with hx1 | hx2
              · exact hs x (List.mem_of_mem_filter hx1)
              · rcases List.mem_singleton.mp hx2 with rfl; exact hme)
            hn₁ hb₁
        refine ⟨p', s', hl', hp', hs', hn', hb', ?_, ?_, ?_, hle⟩
        · intro k
          have h1 := hcount k
          have h2 : keyCount k (serverKeys (s₁ ++ [e])) = keyCount k (serverKeys s) := by
            have hp1 : (serverKeys (s₁ ++ [e])).Perm (serverKeys s) := by
              rw [serverKeys_snoc]
              have hmap : (serverKeys s).Perm (DnsServer.key e :: serverKeys s₁) := by
                have := hsperm.map DnsServer.key
                simpa [serverKeys] using this
              exact (List.perm_append_singleton _ _).trans hmap.symm
            exact keyCount_perm hp1 k
          rw [candKeys_cons, keyCount_append]
          omega
        · intro c' hc'
          rcases List.mem_cons.mp hc' with rfl | hc''
          · have hmem : e ∈ s' :=
              hpers e (List.mem_append.mpr (Or.inr (List.mem_singleton.mpr rfl)))
            rw [← hkey]
            exact List.mem_map.mpr ⟨e, hmem, rfl⟩
          · exact hsat c' hc''
        · intro x hx
          by_cases hxe : x = e
          · rw [hxe]
            exact hpers e (List.mem_append.mpr (Or.inr (List.mem_singleton.mpr rfl)))
          · have hxid : x.id ≠ e.id := fun hid => hxe (ids_injective hns hes hx hid)
            refine hpers x (List.mem_append.mpr (Or.inl ?_))
            rw [hs₁def]
            exact List.mem_filter.mpr ⟨hx, by simpa using hxid⟩
    | none =>
      simp only [dns_servers_reconcile, hf] at hrec
      cases hA : allocOk i with
      | false => rw [hA] at hrec; simp at hrec
      | true =>
        rw [hA] at hrec
        simp only [if_true] at hrec
        rw [List.append_assoc] at hrec
        have hn₁ : (serverIds (p ++ (s ++ [mkNewServer nid c]))).Nodup := by
          have h1 : serverIds (p ++ (s ++ [mkNewServer nid c])) =
              serverIds (p ++ s) ++ [nid] := by
            simp [serverIds, mkNewServer]
          rw [h1]
          refine hn.append (List.nodup_singleton _) ?_
          intro a ha hb'
          rcases List.mem_singleton.mp hb' with rfl
          simp only [serverIds, List.mem_map] at ha
          obtain ⟨x, hx, rfl⟩ := ha
          exact absurd (hb x hx) (lt_irrefl _)
        have hb₁ : ∀ x ∈ p ++ (s ++ [mkNewServer nid c]), x.id < nid + 1 := by
          intro x hx
          rcases List.mem_append.mp hx with hx1 | hx2
          · exact Nat.lt_succ_of_lt (hb x (List.mem_append.mpr (Or.inl hx1)))
          · rcases List.mem_append.mp hx2 with hx3 | hx4
            · exact Nat.lt_succ_of_lt (hb x (List.mem_append.mpr (Or.inr hx3)))
            · rcases List.mem_singleton.mp hx4 with rfl
              exact Nat.lt_succ_self _
        obtain ⟨p', s', hl', hp', hs', hn', hb', hcount, hsat, hpers, hle⟩ :=
          ih p (s ++ [mkNewServer nid c]) (nid + 1) (i + 1) l' nid' hrec hp
            (by
              intro x hx
              rcases List.mem_append.mp hx with hx1 | hx2
              · exact hs x hx1
              · rcases List.mem_singleton.mp hx2 with rfl; rfl)
            hn₁ hb₁
        refine ⟨p', s', hl', hp', hs', hn', hb', ?_, ?_, ?_,
          le_trans (Nat.le_succ _) hle⟩
        · intro k
          have h1 := hcount k
          rw [serverKeys_snoc, mkNewServer_key, keyCount_append] at h1
          rw [candKeys_cons, keyCount_append]
          omega
        · intro c' hc'
          rcases List.mem_cons.mp hc' with rfl | hc''
          · have hmem : mkNewServer nid c' ∈ s' :=
              hpers _ (List.mem_append.mpr (Or.inr (List.mem_singleton.mpr rfl)))
            rw [← mkNewServer_key nid c']
            exact List.mem_map.mpr ⟨mkNewServer nid c', hmem, rfl⟩
          · exact hsat c' hc''
        · intro x hx
          exact hpers x (List.mem_append.mpr (Or.inl hx))

theorem unmark_key (e : DnsServer) : DnsServer.key { e with marked := false } = e.key := rfl

theorem keys_perm_left {p s : List DnsServer} {e : DnsServer} (hep : e ∈ p)
    (hnp : (serverIds p).Nodup) :
    (serverKeys (p.filter (fun t => t.id != e.id) ++ (s ++ [{ e with marked := false }]))).Perm
      (serverKeys (p ++ s)) := by
  have hpe : (serverKeys p).Perm
      (DnsServer.key e :: serverKeys (p.filter (fun t => t.id != e.id))) := by
    simpa [serverKeys] using (filter_remove_perm hep hnp).map DnsServer.key
  have h2 := perm_reassemble (S := serverKeys s) hpe
  simp only [serverKeys_append, serverKeys_snoc, unmark_key]
  exact h2

theorem ids_perm_left {p s : List DnsServer} {e : DnsServer} (hep : e ∈ p)
    (hnp : (serverIds p).Nodup) :
    (serverIds (p.filter (fun t => t.id != e.id) ++ (s ++ [{ e with marked := false }]))).Perm
      (serverIds (p ++ s)) := by
  have hpe : (serverIds p).Perm
      (e.id :: serverIds (p.filter (fun t => t.id != e.id))) := by
    simpa [serverIds] using (filter_remove_perm hep hnp).map (fun t => t.id)
  have h2 := perm_reassemble (S := serverIds s) hpe
  simpa [serverIds_append, serverIds] using h2

theorem keys_perm_right {p s : List DnsServer} {e : DnsServer} (hes : e ∈ s)
    (hns : (serverIds s).Nodup) :
    (serverKeys (p ++ (s.filter (fun t => t.id != e.id) ++ [e]))).Perm
      (serverKeys (p ++ s)) := by
  have hin : (serverKeys (s.filter (fun t => t.id != e.id) ++ [e])).Perm (serverKeys s) := by
    rw [serverKeys_snoc]
    have hmap : (serverKeys s).Perm
        (DnsServer.key e :: serverKeys (s.filter (fun t => t.id != e.id))) := by
      simpa [serverKeys] using (filter_remove_perm hes hns).map DnsServer.key
    exact (List.perm_append_singleton _ _).trans hmap.symm
  have hL := serverKeys_append p (s.filter (fun t => t.id != e.id) ++ [e])
  have hR := serverKeys_append p s
  rw [hL, hR]
  exact hin.append_left (serverKeys p)

theorem ids_perm_right {p s : List DnsServer} {e : DnsServer} (hes : e ∈ s)
    (hns : (serverIds s).Nodup) :
    (serverIds (p ++ (s.filter (fun t => t.id != e.id) ++ [e]))).Perm
      (serverIds (p ++ s)) := by
  have hin : (serverIds (s.filter (fun t => t.id != e.id) ++ [e])).Perm (serverIds s) := by
    have hmap : (serverIds s).Perm
        (e.id :: serverIds (s.filter (fun t => t.id != e.id))) := by
      simpa [serverIds] using (filter_remove_perm hes hns).map (fun t => t.id)
    have h2 : (serverIds (s.filter (fun t => t.id != e.id)) ++ [e.id]).Perm
        (e.id :: serverIds (s.filter (fun t => t.id != e.id))) :=
      List.perm_append_singleton _ _
    have h3 : serverIds (s.filter (fun t => t.id != e.id) ++ [e]) =
        serverIds (s.filter (fun t => t.id != e.id)) ++ [e.id] := by
      simp [serverIds]
    rw [h3]
    exact h2.trans hmap.symm
  have hL := serverIds_append p (s.filter (fun t => t.id != e.id) ++ [e])
  have hR := serverIds_append p s
  rw [hL, hR]
  exact hin.append_left (serverIds p)

theorem keyCount_singleton (k a : Int × List Nat × Option String) :
    keyCount k [a] = if a = k then 1 else 0 := by
  simp [keyCount, List.countP_cons]

theorem keyCount_cons (k a : Int × List Nat × Option String)
    (l : List (Int × List Nat × Option String)) :
    keyCount k (a :: l) = keyCount k l + keyCount k [a] := by
  simp [keyCount, List.countP_cons]

/-- For a candidate list whose keys are pairwise distinct and disjoint from
the already-unmarked part `s`, a successful reconcile run produces, after the
sweep, exactly `s` extended by one entry per candidate, in candidate order. -/
theorem reconcile_nodup_keys (allocOk : Nat → Bool) :
    ∀ (C : List DnsAddr) (p s : List DnsServer) (nid i : Nat) (l' : List DnsServer) (nid' : Nat),
    dns_servers_reconcile allocOk (p ++ s) C nid i = some (l', nid') →
    (∀ e ∈ p, e.marked = true) →
    (∀ e ∈ s, e.marked = false) →
    (serverIds (p ++ s)).Nodup →
    (∀ e ∈ p ++ s, e.id < nid) →
    (candKeys C).Nodup →
    (∀ c ∈ C, ∀ e ∈ s, e.key ≠ c.key) →
    serverKeys (dns_server_unlink_marked l') = serverKeys s ++ candKeys C := by
  intro C
  induction C with
  | nil =>
    intro p s nid i l' nid' hrec hp hs hn hb _ _
    simp only [dns_servers_reconcile, Option.some.injEq, Prod.mk.injEq] at hrec
    obtain ⟨rfl, rfl⟩ := hrec
    rw [unlink_marked_split p s hp hs]
    simp [candKeys]
  | cons c rest ih =>
    intro p s nid i l' nid' hrec hp hs hn hb hck hfresh
    obtain ⟨hnp, hns, hdisj⟩ := nodup_parts hn
    have hckc : c.key ∉ candKeys rest ∧ (candKeys rest).Nodup := by
      have : (candKeys (c :: rest)) = c.key :: candKeys rest := by simp [candKeys]
      rw [this] at hck
      exact List.nodup_cons.mp hck
    cases hf : dns_server_find (p ++ s) c.family c.address c.server_name with
    | some e =>
      simp only [dns_servers_reconcile, hf] at hrec
      obtain ⟨he, hkey⟩ := dns_server_find_some hf
      have hep : e ∈ p := by
        rcases List.mem_append.mp he with h1 | h2
        · exact h1
        · exact absurd hkey (hfresh c (List.mem_cons_self c rest) e h2)
      rw [move_eq_left hep hdisj] at hrec
      have hidp := ids_perm_left (s := s) hep hnp
      have hres := ih (p.filter (fun t => t.id != e.id)) (s ++ [{ e with marked := false }])
        nid (i + 1) l' nid' hrec
        (fun x hx => hp x (List.mem_of_mem_filter hx))
        (by
          intro x hx
          rcases List.mem_append.mp hx with hx1 | hx2
          · exact hs x hx1
          · rcases List.mem_singleton.mp hx2 with rfl; rfl)
        (hidp.nodup_iff.mpr hn)
        (by
          intro x hx
          rcases List.mem_append.mp hx with hx1 | hx2
          · exact hb x (List.mem_append.mpr (Or.inl (List.mem_of_mem_filter hx1)))
          · rcases List.mem_append.mp hx2 with hx3 | hx4
            · exact hb x (List.mem_append.mpr (Or.inr hx3))
            · have hxe := List.mem_singleton.mp hx4
              rw [hxe]
              exact hb e (List.mem_append.mpr (Or.inl hep)))
        hckc.2
        (by
          intro c' hc' x hx
          rcases List.mem_append.mp hx with hx1 | hx2
          · exact hfresh c' (List.mem_cons_of_mem c hc') x hx1
          · have hxe := List.mem_singleton.mp hx2
            rw [hxe, unmark_key, hkey]
            intro hcc
            exact hckc.1 (hcc ▸ List.mem_map.mpr ⟨c', hc', rfl⟩))
      rw [hres, serverKeys_snoc, unmark_key, hkey]
      simp [candKeys]
    | none =>
      simp only [dns_servers_reconcile, hf] at hrec
      cases hA : allocOk i with
      | false => rw [hA] at hrec; simp at hrec
      | true =>
        rw [hA] at hrec
        simp only [if_true] at hrec
        rw [List.append_assoc] at hrec
        have hn₁ : (serverIds (p ++ (s ++ [mkNewServer nid c]))).Nodup := by
          have h1 : serverIds (p ++ (s ++ [mkNewServer nid c])) =
              serverIds (p ++ s) ++ [nid] := by
            simp [serverIds, mkNewServer]
          rw [h1]
          refine hn.append (List.nodup_singleton _) ?_
          intro a ha hb'
          rcases List.mem_singleton.mp hb' with rfl
          simp only [serverIds, List.mem_map] at ha
          obtain ⟨x, hx, rfl⟩ := ha
          exact absurd (hb x hx) (lt_irrefl _)
        have hres := ih p (s ++ [mkNewServer nid c]) (nid + 1) (i + 1) l' nid' hrec hp
          (by
            intro x hx
            rcases List.mem_append.mp hx with hx1 | hx2
            · exact hs x hx1
            · rcases List.mem_singleton.mp hx2 with rfl; rfl)
          hn₁
          (by
            intro x hx
            rcases List.mem_append.mp hx with hx1 | hx2
            · exact Nat.lt_succ_of_lt (hb x (List.mem_append.mpr (Or.inl hx1)))
            · rcases List.mem_append.mp hx2 with hx3 | hx4
              · exact Nat.lt_succ_of_lt (hb x (List.mem_append.mpr (Or.inr hx3)))
              · have hxe := List.mem_singleton.mp hx4
                rw [hxe]
                exact Nat.lt_succ_self _)
          hckc.2
          (by
            intro c' hc' x hx
            rcases List.mem_append.mp hx with hx1 | hx2
            · exact hfresh c' (List.mem_cons_of_mem c hc') x hx1
            · have hxe := List.mem_singleton.mp hx2
              rw [hxe, mkNewServer_key]
              intro hcc
              exact hckc.1 (hcc ▸ List.mem_map.mpr ⟨c', hc', rfl⟩))
        rw [hres, serverKeys_snoc, mkNewServer_key]
        simp [candKeys]


/-- If every candidate key is already present in the list and the number of
marked entries of each key does not exceed the number of remaining candidates
with that key, the reconcile loop succeeds without allocating, ends with no
marked entry, and permutes the identities. -/
theorem reconcile_call2 (allocOk : Nat → Bool) :
    ∀ (C : List DnsAddr) (p s : List DnsServer) (nid i : Nat),
    (∀ e ∈ p, e.marked = true) →
    (∀ e ∈ s, e.marked = false) →
    (serverIds (p ++ s)).Nodup →
    (∀ c ∈ C, c.key ∈ serverKeys (p ++ s)) →
    (∀ k, keyCount k (serverKeys p) ≤ keyCount k (candKeys C)) →
    ∃ l', dns_servers_reconcile allocOk (p ++ s) C nid i = some (l', nid) ∧
      (∀ e ∈ l', e.marked = false) ∧
      (serverIds l').Perm (serverIds (p ++ s)) := by
  intro C
  induction C with
  | nil =>
    intro p s nid i hp hs hn hfind hcount
    have hpnil : p = [] := by
      cases hpc : p with
      | nil => rfl
      | cons a q =>
        exfalso
        have h1 : a.key ∈ serverKeys p := by
          rw [hpc]; exact List.mem_map.mpr ⟨a, List.mem_cons_self a q, rfl⟩
        have h2 := keyCount_pos_of_mem h1
        have h3 := hcount a.key
        have h4 : keyCount a.key (candKeys []) = 0 := by simp [keyCount, candKeys]
        omega
    subst hpnil
    refine ⟨[] ++ s, by simp [dns_servers_reconcile], ?_, List.Perm.refl _⟩
    intro e he
    exact hs e (by simpa using he)
  | cons c rest ih =>
    intro p s nid i hp hs hn hfind hcount
    obtain ⟨hnp, hns, hdisj⟩ := nodup_parts hn
    obtain ⟨e, hf⟩ := dns_server_find_isSome (hfind c (List.mem_cons_self c rest))
    obtain ⟨he, hkey⟩ := dns_server_find_some hf
    have hsplit : (candKeys (c :: rest)) = [c.key] ++ candKeys rest := candKeys_cons c rest
    cases hfp : p.find? (fun t =>
        t.family == c.family && t.address == c.address && t.server_name == c.server_name) with
    | some ep =>
      -- the first match lies in the still-marked part
      have hfe : e = ep := by
        have : dns_server_find (p ++ s) c.family c.address c.server_name = some ep := by
          simp only [dns_server_find, List.find?_append, hfp, Option.or_some]
        rw [hf] at this
        exact (Option.some.injEq _ _ ▸ this)
      subst hfe
      have hep : e ∈ p := List.mem_of_find?_eq_some hfp
      have hpe : p.Perm (e :: p.filter (fun t => t.id != e.id)) := filter_remove_perm hep hnp
      have hkp := keys_perm_left (s := s) hep hnp
      have hip := ids_perm_left (s := s) hep hnp
      have hres := ih (p.filter (fun t => t.id != e.id)) (s ++ [{ e with marked := false }])
        nid (i + 1)
        (fun x hx => hp x (List.mem_of_mem_filter hx))
        (by
          intro x hx
          rcases List.mem_append.mp hx with hx1 | hx2
          · exact hs x hx1
          · rcases List.mem_singleton.mp hx2 with rfl; rfl)
        (hip.nodup_iff.mpr hn)
        (by
          intro c' hc'
          exact hkp.mem_iff.mpr (hfind c' (List.mem_cons_of_mem c hc')))
        (by
          intro k
          have h1 := hcount k
          have h2 : keyCount k (serverKeys p) =
              keyCount k (serverKeys (p.filter (fun t => t.id != e.id))) +
                keyCount k [c.key] := by
            have h3 : (serverKeys p).Perm
                (c.key :: serverKeys (p.filter (fun t => t.id != e.id))) := by
              have h4 := hpe.map DnsServer.key
              simp only [List.map_cons] at h4
              rw [hkey] at h4
              exact h4
            rw [keyCount_perm h3 k, keyCount_cons]
          rw [hsplit, keyCount_append] at h1
          omega)
      obtain ⟨l', hrec', hunm, hperm⟩ := hres
      refine ⟨l', ?_, hunm, ?_⟩
      · simp only [dns_servers_reconcile, hf]
        rw [move_eq_left hep hdisj]
        exact hrec'
      · exact hperm.trans hip
    | none =>
      -- no match in the marked part: the first match lies in `s`
      have hfs : s.find? (fun t =>
          t.family == c.family && t.address == c.address && t.server_name == c.server_name) =
          some e := by
        have h0 : dns_server_find (p ++ s) c.family c.address c.server_name =
            s.find? (fun t =>
              t.family == c.family && t.address == c.address &&
                t.server_name == c.server_name) := by
          simp only [dns_server_find, List.find?_append, hfp, Option.none_or]
        rw [← h0, hf]
      have hes : e ∈ s := List.mem_of_find?_eq_some hfs
      have hme : e.marked = false := hs e hes
      have hzero : keyCount c.key (serverKeys p) = 0 := by
        rw [keyCount, List.countP_eq_zero]
        intro a ha
        simp only [serverKeys, List.mem_map] at ha
        obtain ⟨x, hx, rfl⟩ := ha
        have hnx := List.find?_eq_none.mp hfp x hx
        simp only [decide_eq_true_eq]
        intro hxk
        exact hnx ((find_pred_iff c x).mpr hxk)
      have hkp := keys_perm_right (p := p) hes hns
      have hip := ids_perm_right (p := p) hes hns
      have hres := ih p (s.filter (fun t => t.id != e.id) ++ [e]) nid (i + 1) hp
        (by
          intro x hx
          rcases List.mem_append.mp hx with hx1 | hx2
          · exact hs x (List.mem_of_mem_filter hx1)
          · rcases List.mem_singleton.mp hx2 with rfl; exact hme)
        (hip.nodup_iff.mpr hn)
        (by
          intro c' hc'
          exact hkp.mem_iff.mpr (hfind c' (List.mem_cons_of_mem c hc')))
        (by
          intro k
          have h1 := hcount k
          rw [hsplit, keyCount_append] at h1
          by_cases hkc : k = c.key
          · subst hkc
            rw [hzero]
            exact Nat.zero_le _
          · have h2 : keyCount k [c.key] = 0 := by
              rw [keyCount_singleton, if_neg (fun h => hkc h.symm)]
            omega)
      obtain ⟨l', hrec', hunm, hperm⟩ := hres
      refine ⟨l', ?_, hunm, ?_⟩
      · simp only [dns_servers_reconcile, hf]
        rw [move_eq_right hes hdisj hme]
        exact hrec'
      · exact hperm.trans hip






theorem domainIds_append (p s : List DnsSearchDomain) :
    domainIds (p ++ s) = domainIds p ++ domainIds s := by
  simp [domainIds]

theorem domainPairs_append (p s : List DnsSearchDomain) :
    domainPairs (p ++ s) = domainPairs p ++ domainPairs s := by
  simp [domainPairs]

theorem unlink_marked_unmarked_d (l : List DnsSearchDomain) :
    ∀ e ∈ dns_search_domain_unlink_marked l, e.marked = false := by
  intro e he
  simp only [dns_search_domain_unlink_marked, List.mem_filter, Bool.not_eq_true'] at he
  exact he.2

theorem unlink_marked_split_d (p s : List DnsSearchDomain)
    (hp : ∀ e ∈ p, e.marked = true) (hs : ∀ e ∈ s, e.marked = false) :
    dns_search_domain_unlink_marked (p ++ s) = s := by
  simp only [dns_search_domain_unlink_marked, List.filter_append]
  rw [List.filter_eq_nil_iff.mpr, List.filter_eq_self.mpr, List.nil_append]
  · intro e he; simp [hs e he]
  · intro e he; simp [hp e he]

theorem nodup_parts_d {p s : List DnsSearchDomain} (hn : (domainIds (p ++ s)).Nodup) :
    (domainIds p).Nodup ∧ (domainIds s).Nodup ∧ ∀ x ∈ p, ∀ y ∈ s, x.id ≠ y.id := by
  rw [domainIds_append, List.nodup_append] at hn
  refine ⟨hn.1, hn.2.1, ?_⟩
  intro x hx y hy hxy
  exact hn.2.2 (List.mem_map.mpr ⟨x, hx, rfl⟩) (hxy ▸ List.mem_map.mpr ⟨y, hy, rfl⟩)

theorem filter_ne_of_disjoint_d {s : List DnsSearchDomain} {i : Nat}
    (h : ∀ x ∈ s, x.id ≠ i) : s.filter (fun t => t.id != i) = s := by
  apply List.filter_eq_self.mpr
  intro a ha
  simpa using h a ha

theorem filter_remove_perm_d {p : List DnsSearchDomain} {e : DnsSearchDomain} (he : e ∈ p)
    (hn : (domainIds p).Nodup) :
    p.Perm (e :: p.filter (fun t => t.id != e.id)) := by
  induction p with
  | nil => cases he
  | cons a q ih =>
    simp only [domainIds, List.map_cons, List.nodup_cons] at hn
    rcases List.mem_cons.mp he with rfl | he'
    · have hq : q.filter (fun t => t.id != e.id) = q := by
        apply filter_ne_of_disjoint_d
        intro x hx hxe
        exact hn.1 (hxe ▸ List.mem_map.mpr ⟨x, hx, rfl⟩)
      simp [List.filter_cons, hq]
    · have hae : a.id ≠ e.id := by
        intro hc
        exact hn.1 (hc ▸ List.mem_map.mpr ⟨e, he', rfl⟩)
      have hf : (a :: q).filter (fun t => t.id != e.id) =
          a :: q.filter (fun t => t.id != e.id) := by
        simp [List.filter_cons, hae]
      rw [hf]
      exact ((ih he' hn.2).cons a).trans (List.Perm.swap e a _)

theorem dns_search_domain_find_some {l : List DnsSearchDomain} {name : String}
    {d : DnsSearchDomain} (h : dns_search_domain_find l name = some d) :
    d ∈ l ∧ d.name = name := by
  simp only [dns_search_domain_find] at h
  refine ⟨List.mem_of_find?_eq_some h, ?_⟩
  have hp := List.find?_some h
  simpa using hp

theorem move_eq_left_d {p s : List DnsSearchDomain} {d : DnsSearchDomain} {ro : Bool}
    (hd : d ∈ p) (hdisj : ∀ x ∈ p, ∀ y ∈ s, x.id ≠ y.id) :
    dns_search_domain_move_back_and_unmark (p ++ s) { d with route_only := ro } =
      p.filter (fun t => t.id != d.id) ++
        (s ++ [{ id := d.id, name := d.name, route_only := ro, marked := false }]) := by
  simp only [dns_search_domain_move_back_and_unmark, List.filter_append]
  rw [filter_ne_of_disjoint_d (fun y hy => (hdisj d hd y hy).symm), List.append_assoc]

theorem ids_perm_left_d {p s : List DnsSearchDomain} {d : DnsSearchDomain} {x : DnsSearchDomain}
    (hd : d ∈ p) (hnp : (domainIds p).Nodup) (hx : x.id = d.id) :
    (domainIds (p.filter (fun t => t.id != d.id) ++ (s ++ [x]))).Perm
      (domainIds (p ++ s)) := by
  have hpe : (domainIds p).Perm
      (d.id :: domainIds (p.filter (fun t => t.id != d.id))) := by
    simpa [domainIds] using (filter_remove_perm_d hd hnp).map (fun t => t.id)
  have h2 := perm_reassemble (S := domainIds s) hpe
  have hL : domainIds (p.filter (fun t => t.id != d.id) ++ (s ++ [x])) =
      domainIds (p.filter (fun t => t.id != d.id)) ++ (domainIds s ++ [d.id]) := by
    simp [domainIds, hx]
  rw [hL, domainIds_append]
  exact h2

/-- For a candidate batch with pairwise-distinct names, all of them fresh for
the already-unmarked part `s`, a successful reconcile run produces, after the
sweep, exactly `s` extended by one entry per candidate carrying the
candidate's name and route-only flag, in candidate order. -/
theorem domains_reconcile_nodup (allocOk : Nat → Bool) :
    ∀ (ds : List (String × Bool)) (p s : List DnsSearchDomain) (nid i : Nat)
      (l' : List DnsSearchDomain) (nid' : Nat),
    search_domains_reconcile allocOk (p ++ s) ds nid i = some (l', nid') →
    (∀ e ∈ p, e.marked = true) →
    (∀ e ∈ s, e.marked = false) →
    (domainIds (p ++ s)).Nodup →
    (∀ e ∈ p ++ s, e.id < nid) →
    (ds.map Prod.fst).Nodup →
    (∀ c ∈ ds, ∀ e ∈ s, e.name ≠ c.1) →
    domainPairs (dns_search_domain_unlink_marked l') = domainPairs s ++ ds := by
  intro ds
  induction ds with
  | nil =>
    intro p s nid i l' nid' hrec hp hs hn hb _ _
    simp only [search_domains_reconcile, Option.some.injEq, Prod.mk.injEq] at hrec
    obtain ⟨rfl, rfl⟩ := hrec
    rw [unlink_marked_split_d p s hp hs]
    simp
  | cons c rest ih =>
    obtain ⟨name, ro⟩ := c
    intro p s nid i l' nid' hrec hp hs hn hb hck hfresh
    obtain ⟨hnp, hns, hdisj⟩ := nodup_parts_d hn
    have hckc : name ∉ rest.map Prod.fst ∧ (rest.map Prod.fst).Nodup := by
      have h0 : (name :: rest.map Prod.fst).Nodup := by simpa using hck
      exact List.nodup_cons.mp h0
    cases hf : dns_search_domain_find (p ++ s) name with
    | some d =>
      simp only [search_domains_reconcile, hf] at hrec
      obtain ⟨hd, hdn⟩ := dns_search_domain_find_some hf
      have hdp : d ∈ p := by
        rcases List.mem_append.mp hd with h1 | h2
        · exact h1
        · exact absurd hdn (hfresh (name, ro) (List.mem_cons_self _ rest) d h2)
      rw [move_eq_left_d hdp hdisj] at hrec
      have hres := ih (p.filter (fun t => t.id != d.id))
        (s ++ [{ id := d.id, name := d.name, route_only := ro, marked := false }])
        nid (i + 1) l' nid' hrec
        (fun x hx => hp x (List.mem_of_mem_filter hx))
        (by
          intro x hx
          rcases List.mem_append.mp hx with hx1 | hx2
          · exact hs x hx1
          · rcases List.mem_singleton.mp hx2 with rfl; rfl)
        ((ids_perm_left_d (s := s)
          (x := { id := d.id, name := d.name, route_only := ro, marked := false })
          hdp hnp rfl).nodup_iff.mpr hn)
        (by
          intro x hx
          rcases List.mem_append.mp hx with hx1 | hx2
          · exact hb x (List.mem_append.mpr (Or.inl (List.mem_of_mem_filter hx1)))
          · rcases List.mem_append.mp hx2 with hx3 | hx4
            · exact hb x (List.mem_append.mpr (Or.inr hx3))
            · have hxe := List.mem_singleton.mp hx4
              rw [hxe]
              exact hb d (List.mem_append.mpr (Or.inl hdp)))
        hckc.2
        (by
          intro c' hc' x hx
          rcases List.mem_append.mp hx with hx1 | hx2
          · exact hfresh c' (List.mem_cons_of_mem _ hc') x hx1
          · have hxe := List.mem_singleton.mp hx2
            rw [hxe]
            show d.name ≠ c'.1
            rw [hdn]
            intro hcc
            exact hckc.1 (hcc ▸ List.mem_map.mpr ⟨c', hc', rfl⟩))
      rw [hres]
      have hpairs : domainPairs
          (s ++ [{ id := d.id, name := d.name, route_only := ro, marked := false }]) =
          domainPairs s ++ [(name, ro)] := by
        simp [domainPairs, domainPairs_append, hdn]
      rw [hpairs]
      simp
    | none =>
      simp only [search_domains_reconcile, hf] at hrec
      cases hA : allocOk i with
      | false => rw [hA] at hrec; simp at hrec
      | true =>
        rw [hA] at hrec
        simp only [if_true] at hrec
        rw [List.append_assoc] at hrec
        have hn₁ : (domainIds (p ++ (s ++ [mkNewDomain nid name ro]))).Nodup := by
          have h1 : domainIds (p ++ (s ++ [mkNewDomain nid name ro])) =
              domainIds (p ++ s) ++ [nid] := by
            simp [domainIds, mkNewDomain]
          rw [h1]
          refine hn.append (List.nodup_singleton _) ?_
          intro a ha hb'
          rcases List.mem_singleton.mp hb' with rfl
          simp only [domainIds, List.mem_map] at ha
          obtain ⟨x, hx, rfl⟩ := ha
          exact absurd (hb x hx) (lt_irrefl _)
        have hres := ih p (s ++ [mkNewDomain nid name ro]) (nid + 1) (i + 1) l' nid' hrec hp
          (by
            intro x hx
            rcases List.mem_append.mp hx with hx1 | hx2
            · exact hs x hx1
            · rcases List.mem_singleton.mp hx2 with rfl; rfl)
          hn₁
          (by
            intro x hx
            rcases List.mem_append.mp hx with hx1 | hx2
            · exact Nat.lt_succ_of_lt (hb x (List.mem_append.mpr (Or.inl hx1)))
            · rcases List.mem_append.mp hx2 with hx3 | hx4
              · exact Nat.lt_succ_of_lt (hb x (List.mem_append.mpr (Or.inr hx3)))
              · have hxe := List.mem_singleton.mp hx4
                rw [hxe]
                exact Nat.lt_succ_self _)
          hckc.2
          (by
            intro c' hc' x hx
            rcases List.mem_append.mp hx with hx1 | hx2
            · exact hfresh c' (List.mem_cons_of_mem _ hc') x hx1
            · have hxe := List.mem_singleton.mp hx2
              rw [hxe]
              show (mkNewDomain nid name ro).name ≠ c'.1
              simp only [mkNewDomain]
              intro hcc
              exact hckc.1 (hcc ▸ List.mem_map.mpr ⟨c', hc', rfl⟩))
        rw [hres]
        have hpairs : domainPairs (s ++ [mkNewDomain nid name ro]) =
            domainPairs s ++ [(name, ro)] := by
          simp [domainPairs, mkNewDomain]
        rw [hpairs]
        simp
end Resolved

namespace UdevadmInfo

/-- The C backwards scan consumes the whole value exactly when every byte is
printable. -/
theorem scan_len_zero_iff (v : List Char) :
    nonprintable_scan_len v = 0 ↔ ∀ c ∈ v, c_isprint c = true := by
  rw [nonprintable_scan_len, List.length_eq_zero, List.dropWhile_eq_nil_iff]
  constructor
  · intro h c hc
    exact h c (List.mem_reverse.mpr hc)
  · intro h c hc
    exact h c (List.mem_reverse.mp hc)

theorem keep_value_some {v v' : String} (h : keep_value v = some v') :
    v' = v ∧ v.data.head? ≠ some '/' ∧ nonprintable_scan_len v.data = 0 := by
  rw [keep_value] at h
  by_cases h1 : v.data.head? = some '/'
  · rw [if_pos (by simp [h1])] at h
    cases h
  · rw [if_neg (by simp [h1])] at h
    by_cases h2 : nonprintable_scan_len v.data = 0
    · rw [if_neg (by simp [h2])] at h
      exact ⟨(Option.some.injEq _ _ ▸ h).symm, h1, h2⟩
    · rw [if_pos (by simp [h2])] at h
      cases h

theorem keep_value_eq_some {v : String} (h1 : v.data.head? ≠ some '/')
    (h2 : nonprintable_scan_len v.data = 0) : keep_value v = some v := by
  rw [keep_value, if_neg (by simp [h1]), if_neg (by simp [h2])]

/-- Every pair emitted by the collection loop has a non-excluded name, a value
not starting with a slash, and a fully printable value. -/
theorem collect_attrs_forward :
    ∀ (attrs : List (String × AttrRead)), ∀ pv ∈ collect_attrs attrs,
    skip_attribute pv.1 = false ∧ pv.2.data.head? ≠ some '/' ∧
      ∀ ch ∈ pv.2.data, c_isprint ch = true := by
  intro attrs
  induction attrs with
  | nil => intro pv hpv; cases hpv
  | cons a rest ih =>
    obtain ⟨n, r⟩ := a
    intro pv hpv
    cases r with
    | ok v =>
      simp only [collect_attrs] at hpv
      cases hskip : skip_attribute n with
      | true =>
        rw [hskip] at hpv
        simp only [if_true] at hpv
        exact ih pv hpv
      | false =>
        rw [hskip] at hpv
        simp only [Bool.false_eq_true, if_false] at hpv
        cases hkv : keep_value v with
        | none =>
          rw [hkv] at hpv
          exact ih pv hpv
        | some v' =>
          rw [hkv] at hpv
          rcases List.mem_cons.mp hpv with rfl | hpv'
          · obtain ⟨hv, hhd, hscan⟩ := keep_value_some hkv
            subst hv
            exact ⟨hskip, hhd, (scan_len_zero_iff _).mp hscan⟩
          · exact ih pv hpv'
    | eperm =>
      simp only [collect_attrs] at hpv
      cases hskip : skip_attribute n with
      | true =>
        rw [hskip] at hpv
        simp only [if_true] at hpv
        exact ih pv hpv
      | false =>
        rw [hskip] at hpv
        simp only [Bool.false_eq_true, if_false] at hpv
        rcases List.mem_cons.mp hpv with rfl | hpv'
        · exact ⟨hskip,
            (by decide : ("(write-only)" : String).data.head? ≠ some '/'),
            (by decide : ∀ ch ∈ ("(write-only)" : String).data, c_isprint ch = true)⟩
        · exact ih pv hpv'
    | readError =>
      simp only [collect_attrs] at hpv
      exact ih pv hpv

/-- Every attribute that reads successfully and passes all three filters is
emitted by the collection loop. -/
theorem collect_attrs_complete :
    ∀ (attrs : List (String × AttrRead)) (n : String) (v : String),
    (n, AttrRead.ok v) ∈ attrs → skip_attribute n = false →
    v.data.head? ≠ some '/' → nonprintable_scan_len v.data = 0 →
    (n, v) ∈ collect_attrs attrs := by
  intro attrs
  induction attrs with
  | nil => intro n v hmem; cases hmem
  | cons a rest ih =>
    obtain ⟨m, r⟩ := a
    intro n v hmem hskip hhd hscan
    have hsub : (n, v) ∈ collect_attrs rest → (n, v) ∈ collect_attrs ((m, r) :: rest) := by
      intro hin
      cases r with
      | ok w =>
        simp only [collect_attrs]
        cases hsm : skip_attribute m with
        | true => simp only [if_true]; exact hin
        | false =>
          simp only [Bool.false_eq_true, if_false]
          cases hkw : keep_value w with
          | none => exact hin
          | some w' => exact List.mem_cons_of_mem _ hin
      | eperm =>
        simp only [collect_attrs]
        cases hsm : skip_attribute m with
        | true => simp only [if_true]; exact hin
        | false =>
          simp only [Bool.false_eq_true, if_false]
          exact List.mem_cons_of_mem _ hin
      | readError =>
        simp only [collect_attrs]
        exact hin
    rcases List.mem_cons.mp hmem with heq | hmem'
    · have hm : m = n := (Prod.mk.injEq _ _ _ _ ▸ heq.symm).1
      have hr : r = AttrRead.ok v := (Prod.mk.injEq _ _ _ _ ▸ heq.symm).2
      subst hm; subst hr
      simp only [collect_attrs, hskip, Bool.false_eq_true, if_false,
        keep_value_eq_some hhd hscan]
      exact List.mem_cons_self _ _
    · exact hsub (ih n v hmem' hskip hhd hscan)

end UdevadmInfo

namespace Resolved

















/-- An invalid batch entry forces the validation loop to report failure. -/
theorem set_domains_validate_false (validName isRoot : String → Bool) :
    ∀ ds : List (String × Bool),
    (∃ p ∈ ds, validName p.1 = false ∨ (p.2 = false ∧ isRoot p.1 = true)) →
    set_domains_validate validName isRoot ds = false := by
  intro ds
  induction ds with
  | nil =>
    rintro ⟨p, hp, _⟩
    cases hp
  | cons a rest ih =>
    obtain ⟨name, ro⟩ := a
    rintro ⟨p, hp, hbad⟩
    simp only [set_domains_validate]
    cases hvn : validName name with
    | false => simp
    | true =>
      simp only [hvn, Bool.not_true, Bool.false_eq_true, if_false]
      cases hni : (!ro && isRoot name) with
      | true => simp
      | false =>
        simp only [Bool.false_eq_true, if_false]
        rcases List.mem_cons.mp hp with rfl | hp'
        · exfalso
          rcases hbad with hb1 | ⟨hb2, hb3⟩
          · have hb1' : validName name = false := hb1
            rw [hvn] at hb1'
            exact Bool.noConfusion hb1'
          · have hro : ro = false := hb2
            have hrt : isRoot name = true := hb3
            have htrue : (!ro && isRoot name) = true := by rw [hro, hrt]; rfl
            rw [htrue] at hni
            exact Bool.noConfusion hni
        · exact ih ⟨p, hp', hbad⟩

/-- C3: a `SetDomains` batch containing an invalid entry (malformed name, or
the root domain without route-only) fails with `InvalidArgument` for every
authorization outcome and every allocation behaviour, before any mutation:
the link — in particular its search-domain list — is returned unchanged and
no side effect is triggered. -/
theorem c3_set_domains_rejects_invalid_batch_atomically
    (validName isRoot : String → Bool) (allocOk : Nat → Bool) (auth : AuthResult)
    (l : Link) (ds : List (String × Bool))
    (hl : l.loopback = false) (hm : l.is_managed = false)
    (hbad : ∃ p ∈ ds, validName p.1 = false ∨ (p.2 = false ∧ isRoot p.1 = true)) :
    bus_link_method_set_domains validName isRoot allocOk auth (some ds) l =
      ⟨.err .invalidArg, l, []⟩ := by
  have hv : verify_unmanaged_link l = false := by
    simp [verify_unmanaged_link, hl, hm]
  have hval := set_domains_validate_false validName isRoot ds hbad
  simp [bus_link_method_set_domains, hv, hval]

/-- Witness for C3 at the spec's own example batch
`[("a.example", false), (".", false)]`. -/
theorem c3_witness :
    bus_link_method_set_domains demoValidName demoIsRoot (fun _ => true) .granted
      (some [("a.example", false), (".", false)]) demoLink =
      ⟨.err .invalidArg, demoLink, []⟩ :=
  c3_set_domains_rejects_invalid_batch_atomically demoValidName demoIsRoot
    (fun _ => true) .granted demoLink [("a.example", false), (".", false)]
    (by decide) (by decide)
    ⟨(".", false), by decide, Or.inr ⟨rfl, by decide⟩⟩

/-- C4: a `SetDNS` call denied by the authorization gate returns the link
completely unchanged — same membership, and (given the invariant that no
entry is marked between calls) zero marked entries. -/
theorem c4_set_dns_denied_leaves_list_unchanged
    (allocOk : Nat → Bool) (l : Link) (dns : List DnsAddr)
    (hl : l.loopback = false) (hm : l.is_managed = false)
    (hunm : ∀ s ∈ l.dns_servers, s.marked = false) :
    (bus_link_method_set_dns_servers_internal allocOk .denied (some dns) l).result =
      .err .authDenied ∧
    (bus_link_method_set_dns_servers_internal allocOk .denied (some dns) l).link = l ∧
    ∀ s ∈ (bus_link_method_set_dns_servers_internal allocOk .denied (some dns) l).link.dns_servers,
      s.marked = false := by
  have hv : verify_unmanaged_link l = false := by
    simp [verify_unmanaged_link, hl, hm]
  have hlink : (bus_link_method_set_dns_servers_internal allocOk .denied (some dns) l).link = l := by
    simp [bus_link_method_set_dns_servers_internal, hv]
  refine ⟨by simp [bus_link_method_set_dns_servers_internal, hv], hlink, ?_⟩
  rw [hlink]
  exact hunm

/-- Witness for C4 at a concrete link and candidate list. -/
theorem c4_witness :
    (bus_link_method_set_dns_servers_internal (fun _ => true) .denied (some [demoAddr])
        demoLink).link = demoLink :=
  (c4_set_dns_denied_leaves_list_unchanged (fun _ => true) demoLink [demoAddr]
    (by decide) (by decide) (by decide)).2.1


/-- C5: on a loopback-flagged or externally managed link, every mutating
per-link method — including with a malformed request body (`msg = none`) and
for every authorization outcome — fails with `Busy` and leaves the link
unchanged with no side effects: the eligibility check precedes any parsing. -/
theorem c5_busy_precedes_parsing (l : Link)
    (hbusy : l.loopback = true ∨ l.is_managed = true) :
    (∀ (allocOk : Nat → Bool) (auth : AuthResult) (msg : Option (List DnsAddr)),
      bus_link_method_set_dns_servers_internal allocOk auth msg l = ⟨.err .busy, l, []⟩) ∧
    (∀ (validName isRoot : String → Bool) (allocOk : Nat → Bool) (auth : AuthResult)
        (msg : Option (List (String × Bool))),
      bus_link_method_set_domains validName isRoot allocOk auth msg l = ⟨.err .busy, l, []⟩) ∧
    (∀ (auth : AuthResult) (msg : Option Bool),
      bus_link_method_set_default_route auth msg l = ⟨.err .busy, l, []⟩) ∧
    (∀ (auth : AuthResult) (msg : Option String),
      bus_link_method_set_llmnr auth msg l = ⟨.err .busy, l, []⟩) ∧
    (∀ (auth : AuthResult) (msg : Option String),
      bus_link_method_set_mdns auth msg l = ⟨.err .busy, l, []⟩) ∧
    (∀ (auth : AuthResult) (msg : Option String),
      bus_link_method_set_dns_over_tls auth msg l = ⟨.err .busy, l, []⟩) ∧
    (∀ (auth : AuthResult) (msg : Option String),
      bus_link_method_set_dnssec auth msg l = ⟨.err .busy, l, []⟩) ∧
    (∀ (validName : String → Bool) (auth : AuthResult) (msg : Option (List String)),
      bus_link_method_set_dnssec_negative_trust_anchors validName auth msg l =
        ⟨.err .busy, l, []⟩) ∧
    (∀ auth : AuthResult, bus_link_method_revert auth l = ⟨.err .busy, l, []⟩) := by
  have hv : verify_unmanaged_link l = true := by
    rcases hbusy with h | h <;> simp [verify_unmanaged_link, h]
  refine ⟨?_, ?_, ?_, ?_, ?_, ?_, ?_, ?_, ?_⟩ <;> intros <;>
    simp [bus_link_method_set_dns_servers_internal, bus_link_method_set_domains,
      bus_link_method_set_default_route, bus_link_method_set_llmnr,
      bus_link_method_set_mdns, bus_link_method_set_dns_over_tls,
      bus_link_method_set_dnssec, bus_link_method_set_dnssec_negative_trust_anchors,
      bus_link_method_revert, hv]

/-- Witness for C5: a loopback link rejects a malformed `SetDNS` body with
`Busy`. -/
theorem c5_witness :
    bus_link_method_set_dns_servers_internal (fun _ => true) .granted none demoBusyLink =
      ⟨.err .busy, demoBusyLink, []⟩ :=
  (c5_busy_precedes_parsing demoBusyLink (Or.inl (by decide))).1 (fun _ => true) .granted none

/-- C6: an unrecoverable error inside the reconcile loop (modelled by a
failing allocation) makes `SetDNS` / `SetDomains` unlink the entire owning
list — pre-existing entries included — and report failure. -/
theorem c6_reconcile_failure_unlinks_whole_list
    (l₁ l₂ : Link) (dns : List DnsAddr) (ds : List (String × Bool))
    (validName isRoot : String → Bool) (a₁ a₂ : Nat → Bool)
    (h1l : l₁.loopback = false) (h1m : l₁.is_managed = false)
    (h2l : l₂.loopback = false) (h2m : l₂.is_managed = false)
    (hval : set_domains_validate validName isRoot ds = true)
    (hrec1 : dns_servers_reconcile a₁ (dns_server_mark_all l₁.dns_servers) dns l₁.next_id 0 =
      none)
    (hrec2 : search_domains_reconcile a₂ (dns_search_domain_mark_all l₂.search_domains) ds
      l₂.next_id 0 = none) :
    ((bus_link_method_set_dns_servers_internal a₁ .granted (some dns) l₁).result =
        .err .resourceExhausted ∧
      (bus_link_method_set_dns_servers_internal a₁ .granted (some dns) l₁).link.dns_servers =
        []) ∧
    ((bus_link_method_set_domains validName isRoot a₂ .granted (some ds) l₂).result =
        .err .resourceExhausted ∧
      (bus_link_method_set_domains validName isRoot a₂ .granted (some ds) l₂).link.search_domains =
        []) := by
  have hv1 : verify_unmanaged_link l₁ = false := by
    simp [verify_unmanaged_link, h1l, h1m]
  have hv2 : verify_unmanaged_link l₂ = false := by
    simp [verify_unmanaged_link, h2l, h2m]
  constructor
  · constructor <;>
      simp [bus_link_method_set_dns_servers_internal, hv1, hrec1]
  · constructor <;>
      simp [bus_link_method_set_domains, hv2, hval, hrec2]

/-- Witness for C6: a link with one server and one domain, a fresh candidate
in each batch, and an always-failing allocator. -/
theorem c6_witness :
    (bus_link_method_set_dns_servers_internal (fun _ => false) .granted (some [demoAddr])
        demoLink).link.dns_servers = [] ∧
    (bus_link_method_set_domains demoValidName demoIsRoot (fun _ => false) .granted
        (some [("b.example", false)]) demoLink).link.search_domains = [] := by
  have h := c6_reconcile_failure_unlinks_whole_list demoLink demoLink [demoAddr]
    [("b.example", false)] demoValidName demoIsRoot (fun _ => false) (fun _ => false)
    (by decide) (by decide) (by decide) (by decide) (by decide) (by decide) (by decide)
  exact ⟨h.1.2, h.2.2⟩

theorem move_ids_subset {M : List DnsServer} {e0 : DnsServer} (he : e0 ∈ M) :
    ∀ x ∈ dns_server_move_back_and_unmark M e0, x.id ∈ serverIds M := by
  intro x hx
  rcases List.mem_append.mp hx with h1 | h2
  · exact List.mem_map.mpr ⟨x, List.mem_of_mem_filter h1, rfl⟩
  · rcases List.mem_singleton.mp h2 with rfl
    exact List.mem_map.mpr ⟨e0, he, rfl⟩

/-- C1: re-supplying an address that is already present under a different
port matches the existing entry instead of creating a duplicate: the call
succeeds, the allocation counter does not move (nothing is created), and
every entry of the resulting list is one of the pre-existing entries. -/
theorem c1_set_dns_match_ignores_port
    (l : Link) (s0 : DnsServer) (c : DnsAddr) (allocOk : Nat → Bool)
    (hl : l.loopback = false) (hm : l.is_managed = false)
    (hmem : s0 ∈ l.dns_servers)
    (hfam : s0.family = c.family) (haddr : s0.address = c.address)
    (hname : s0.server_name = c.server_name)
    (hport : s0.port ≠ c.port) :
    (bus_link_method_set_dns_servers_internal allocOk .granted (some [c]) l).result =
      .success ∧
    (bus_link_method_set_dns_servers_internal allocOk .granted (some [c]) l).link.next_id =
      l.next_id ∧
    ∀ x ∈ (bus_link_method_set_dns_servers_internal allocOk .granted
        (some [c]) l).link.dns_servers,
      x.id ∈ serverIds l.dns_servers := by
  have hv : verify_unmanaged_link l = false := by
    simp [verify_unmanaged_link, hl, hm]
  have hkeymem : c.key ∈ serverKeys (dns_server_mark_all l.dns_servers) := by
    rw [mark_all_keys]
    refine List.mem_map.mpr ⟨s0, hmem, ?_⟩
    simp [DnsServer.key, DnsAddr.key, hfam, haddr, hname]
  obtain ⟨e, hf⟩ := dns_server_find_isSome hkeymem
  have he : e ∈ dns_server_mark_all l.dns_servers := (dns_server_find_some hf).1
  have hrec : dns_servers_reconcile allocOk (dns_server_mark_all l.dns_servers) [c]
      l.next_id 0 =
      some (dns_server_move_back_and_unmark (dns_server_mark_all l.dns_servers) e,
        l.next_id) := by
    simp [dns_servers_reconcile, hf]
  refine ⟨?_, ?_, ?_⟩
  · simp [bus_link_method_set_dns_servers_internal, hv, hrec]
  · simp [bus_link_method_set_dns_servers_internal, hv, hrec]
  · intro x hx
    have hlink : (bus_link_method_set_dns_servers_internal allocOk .granted
        (some [c]) l).link.dns_servers =
        dns_server_unlink_marked
          (dns_server_move_back_and_unmark (dns_server_mark_all l.dns_servers) e) := by
      simp [bus_link_method_set_dns_servers_internal, hv, hrec]
    rw [hlink] at hx
    have hx' := List.mem_of_mem_filter hx
    have := move_ids_subset he x hx'
    rw [mark_all_ids] at this
    exact this

/-- Witness for C1: `demoAddr2` matches `demoServer` (port 53) at port 853
without allocating. -/
theorem c1_witness :
    (bus_link_method_set_dns_servers_internal (fun _ => true) .granted (some [demoAddr2])
        demoLink).link.next_id = demoLink.next_id :=
  (c1_set_dns_match_ignores_port demoLink demoServer demoAddr2 (fun _ => true)
    (by decide) (by decide) (by decide) (by decide) (by decide) (by decide)
    (by decide)).2.1

/-- Counterexample to C2: a granted `SetLLMNR` call whose new value equals
the current effective value still reallocates scopes, re-announces RRs and
saves the link state — a no-op write does trigger dependent recomputation
and persistence. -/
theorem c2_counterexample :
    demoLink.llmnr_support = .yes ∧
    (bus_link_method_set_llmnr .granted (some "yes") demoLink).result = .success ∧
    (bus_link_method_set_llmnr .granted (some "yes") demoLink).link.llmnr_support =
      demoLink.llmnr_support ∧
    (bus_link_method_set_llmnr .granted (some "yes") demoLink).effects =
      [.allocateScopes, .addRRs, .saveUser] := by
  decide

/-- C2 (amended): only `SetDefaultRoute` applies the value conditionally — a
granted no-op write returns the link unchanged with no side effects — while
`SetLLMNR` and `SetMulticastDNS` unconditionally reallocate scopes,
re-announce RRs and save, and `SetDNSOverTLS` / `SetDNSSEC` unconditionally
save, even when the new value equals the current one. -/
theorem c2_amended_only_default_route_guards :
    (∀ (l : Link) (b : Bool), l.loopback = false → l.is_managed = false →
      l.default_route = (if b then 1 else 0) →
      bus_link_method_set_default_route .granted (some b) l = ⟨.success, l, []⟩) ∧
    (∀ (l : Link) (s : String), l.loopback = false → l.is_managed = false →
      (bus_link_method_set_llmnr .granted (some s) l).result = .success →
      (bus_link_method_set_llmnr .granted (some s) l).effects =
        [.allocateScopes, .addRRs, .saveUser]) ∧
    (∀ (l : Link) (s : String), l.loopback = false → l.is_managed = false →
      (bus_link_method_set_mdns .granted (some s) l).result = .success →
      (bus_link_method_set_mdns .granted (some s) l).effects =
        [.allocateScopes, .addRRs, .saveUser]) ∧
    (∀ (l : Link) (s : String), l.loopback = false → l.is_managed = false →
      (bus_link_method_set_dns_over_tls .granted (some s) l).result = .success →
      (bus_link_method_set_dns_over_tls .granted (some s) l).effects = [.saveUser]) ∧
    (∀ (l : Link) (s : String), l.loopback = false → l.is_managed = false →
      (bus_link_method_set_dnssec .granted (some s) l).result = .success →
      (bus_link_method_set_dnssec .granted (some s) l).effects = [.saveUser]) := by
  refine ⟨?_, ?_, ?_, ?_, ?_⟩
  · intro l b hl hm heq
    have hv : verify_unmanaged_link l = false := by
      simp [verify_unmanaged_link, hl, hm]
    simp [bus_link_method_set_default_route, hv, heq]
  · intro l s hl hm hres
    have hv : verify_unmanaged_link l = false := by
      simp [verify_unmanaged_link, hl, hm]
    cases hparse : (if s == "" then some ResolveSupport.yes
        else resolve_support_from_string s) with
    | none =>
      simp only [beq_iff_eq] at hparse
      exfalso
      have hbad : (bus_link_method_set_llmnr .granted (some s) l).result =
          .err .invalidArg := by
        simp [bus_link_method_set_llmnr, hv, hparse]
      rw [hbad] at hres
      cases hres
    | some mode =>
      simp only [beq_iff_eq] at hparse
      simp [bus_link_method_set_llmnr, hv, hparse]
  · intro l s hl hm hres
    have hv : verify_unmanaged_link l = false := by
      simp [verify_unmanaged_link, hl, hm]
    cases hparse : (if s == "" then some ResolveSupport.no
        else resolve_support_from_string s) with
    | none =>
      simp only [beq_iff_eq] at hparse
      exfalso
      have hbad : (bus_link_method_set_mdns .granted (some s) l).result =
          .err .invalidArg := by
        simp [bus_link_method_set_mdns, hv, hparse]
      rw [hbad] at hres
      cases hres
    | some mode =>
      simp only [beq_iff_eq] at hparse
      simp [bus_link_method_set_mdns, hv, hparse]
  · intro l s hl hm hres
    have hv : verify_unmanaged_link l = false := by
      simp [verify_unmanaged_link, hl, hm]
    cases hparse : (if s == "" then some DnsOverTlsMode.invalid
        else dns_over_tls_mode_from_string s) with
    | none =>
      simp only [beq_iff_eq] at hparse
      exfalso
      have hbad : (bus_link_method_set_dns_over_tls .granted (some s) l).result =
          .err .invalidArg := by
        simp [bus_link_method_set_dns_over_tls, hv, hparse]
      rw [hbad] at hres
      cases hres
    | some mode =>
      simp only [beq_iff_eq] at hparse
      simp [bus_link_method_set_dns_over_tls, hv, hparse]
  · intro l s hl hm hres
    have hv : verify_unmanaged_link l = false := by
      simp [verify_unmanaged_link, hl, hm]
    cases hparse : (if s == "" then some DnssecMode.invalid
        else dnssec_mode_from_string s) with
    | none =>
      simp only [beq_iff_eq] at hparse
      exfalso
      have hbad : (bus_link_method_set_dnssec .granted (some s) l).result =
          .err .invalidArg := by
        simp [bus_link_method_set_dnssec, hv, hparse]
      rw [hbad] at hres
      cases hres
    | some mode =>
      simp only [beq_iff_eq] at hparse
      simp [bus_link_method_set_dnssec, hv, hparse]

/-- Witness for the amended C2: a no-op `SetDefaultRoute` on a link already
configured with `false` returns unchanged with no effects, while a no-op
`SetLLMNR` still produces the full effect list. -/
theorem c2_amended_witness :
    bus_link_method_set_default_route .granted (some false)
        { demoLink with default_route := 0 } =
      ⟨.success, { demoLink with default_route := 0 }, []⟩ ∧
    (bus_link_method_set_llmnr .granted (some "yes") demoLink).effects =
      [.allocateScopes, .addRRs, .saveUser] :=
  ⟨c2_amended_only_default_route_guards.1 { demoLink with default_route := 0 } false
      (by decide) (by decide) (by decide),
    c2_amended_only_default_route_guards.2.1 demoLink "yes" (by decide) (by decide)
      (by decide)⟩
end Resolved

namespace UdevadmInfo

/-- C9: the attribute-walk table is sorted lexicographically by attribute
name; every printed pair has a name outside the fixed exclusion set, a value
that does not start with a slash and contains only printable bytes; and every
readable attribute passing those filters is printed. -/
theorem c9_attribute_walk_sorted_and_filtered (attrs : List (String × AttrRead)) :
    List.Sorted attrLe (print_all_attributes attrs) ∧
    (∀ pv ∈ print_all_attributes attrs,
      skip_attribute pv.1 = false ∧ pv.2.data.head? ≠ some '/' ∧
        ∀ ch ∈ pv.2.data, c_isprint ch = true) ∧
    (∀ (n v : String), (n, AttrRead.ok v) ∈ attrs → skip_attribute n = false →
      v.data.head? ≠ some '/' → (∀ ch ∈ v.data, c_isprint ch = true) →
      (n, v) ∈ print_all_attributes attrs) := by
  refine ⟨List.sorted_insertionSort attrLe (collect_attrs attrs), ?_, ?_⟩
  · intro pv hpv
    exact collect_attrs_forward attrs pv ((List.mem_insertionSort attrLe).mp hpv)
  · intro n v hmem hskip hhd hpr
    exact (List.mem_insertionSort attrLe).mpr
      (collect_attrs_complete attrs n v hmem hskip hhd ((scan_len_zero_iff v.data).mpr hpr))

/-- Witness for C9 at the spec's example device: the table is sorted and
`uevent` is omitted. -/
theorem c9_witness :
    List.Sorted attrLe (print_all_attributes
      [("zeta", AttrRead.ok "1"), ("alpha", AttrRead.ok "2"), ("uevent", AttrRead.ok "x")]) :=
  (c9_attribute_walk_sorted_and_filtered
    [("zeta", AttrRead.ok "1"), ("alpha", AttrRead.ok "2"), ("uevent", AttrRead.ok "x")]).1

end UdevadmInfo

namespace Resolved



/-- C7: starting from a link with no marked entries, every public method —
whatever its outcome (success, any error, or pending authorization) — returns
a link with no marked entries in either list: marks are transient and scoped
to a single replace-set call. -/
theorem c7_marks_never_escape_a_call (l : Link)
    (hs : ∀ e ∈ l.dns_servers, e.marked = false)
    (hd : ∀ e ∈ l.search_domains, e.marked = false) :
    (∀ (allocOk : Nat → Bool) (auth : AuthResult) (msg : Option (List DnsAddr)),
      ((bus_link_method_set_dns_servers_internal allocOk auth msg l).link).listsUnmarked) ∧
    (∀ (validName isRoot : String → Bool) (allocOk : Nat → Bool) (auth : AuthResult)
        (msg : Option (List (String × Bool))),
      ((bus_link_method_set_domains validName isRoot allocOk auth msg l).link).listsUnmarked) ∧
    (∀ (auth : AuthResult) (msg : Option Bool),
      ((bus_link_method_set_default_route auth msg l).link).listsUnmarked) ∧
    (∀ (auth : AuthResult) (msg : Option String),
      ((bus_link_method_set_llmnr auth msg l).link).listsUnmarked) ∧
    (∀ (auth : AuthResult) (msg : Option String),
      ((bus_link_method_set_mdns auth msg l).link).listsUnmarked) ∧
    (∀ (auth : AuthResult) (msg : Option String),
      ((bus_link_method_set_dns_over_tls auth msg l).link).listsUnmarked) ∧
    (∀ (auth : AuthResult) (msg : Option String),
      ((bus_link_method_set_dnssec auth msg l).link).listsUnmarked) ∧
    (∀ (validName : String → Bool) (auth : AuthResult) (msg : Option (List String)),
      ((bus_link_method_set_dnssec_negative_trust_anchors validName auth msg l).link).listsUnmarked) ∧
    (∀ auth : AuthResult, ((bus_link_method_revert auth l).link).listsUnmarked) := by
  have hnil : ∀ (T : Type) (P : T → Prop) (f : T → Bool),
      ∀ e ∈ ([] : List T), f e = false := by
    intro T P f e he
    cases he
  refine ⟨?_, ?_, ?_, ?_, ?_, ?_, ?_, ?_, ?_⟩
  · intro allocOk auth msg
    simp only [bus_link_method_set_dns_servers_internal]
    repeat' split
    all_goals
      first
        | exact ⟨hs, hd⟩
        | exact ⟨fun e he => absurd he (List.not_mem_nil e), hd⟩
        | exact ⟨unlink_marked_unmarked _, hd⟩
  · intro validName isRoot allocOk auth msg
    simp only [bus_link_method_set_domains]
    repeat' split
    all_goals
      first
        | exact ⟨hs, hd⟩
        | exact ⟨hs, fun e he => absurd he (List.not_mem_nil e)⟩
        | exact ⟨hs, unlink_marked_unmarked_d _⟩
  · intro auth msg
    simp only [bus_link_method_set_default_route]
    repeat' split
    all_goals exact ⟨hs, hd⟩
  · intro auth msg
    simp only [bus_link_method_set_llmnr]
    repeat' split
    all_goals exact ⟨hs, hd⟩
  · intro auth msg
    simp only [bus_link_method_set_mdns]
    repeat' split
    all_goals exact ⟨hs, hd⟩
  · intro auth msg
    simp only [bus_link_method_set_dns_over_tls]
    repeat' split
    all_goals exact ⟨hs, hd⟩
  · intro auth msg
    simp only [bus_link_method_set_dnssec]
    repeat' split
    all_goals exact ⟨hs, hd⟩
  · intro validName auth msg
    simp only [bus_link_method_set_dnssec_negative_trust_anchors]
    repeat' split
    all_goals exact ⟨hs, hd⟩
  · intro auth
    simp only [bus_link_method_revert, link_flush_settings]
    repeat' split
    all_goals
      first
        | exact ⟨hs, hd⟩
        | exact ⟨fun e he => absurd he (List.not_mem_nil e),
            fun e he => absurd he (List.not_mem_nil e)⟩

/-- Witness for C7: a denied `SetDNS` on the demo link leaves both lists
unmarked. -/
theorem c7_witness :
    ((bus_link_method_set_dns_servers_internal (fun _ => true) .denied (some [demoAddr])
        demoLink).link).listsUnmarked :=
  (c7_marks_never_escape_a_call demoLink (by decide) (by decide)).1
    (fun _ => true) .denied (some [demoAddr])

end Resolved

namespace Resolved

/-- C10: for a duplicate-free candidate list, a successful `SetDNS` leaves the
server list keyed exactly by the candidates, in candidate order, and a
successful `SetDomains` leaves the search-domain list carrying exactly the
candidate (name, route-only) pairs, in candidate order: matched entries are
moved to the back and new entries appended, so the final order follows the
request. -/
theorem c10_replace_set_follows_candidate_order
    (l₁ l₂ : Link) (dns : List DnsAddr) (ds : List (String × Bool))
    (validName isRoot : String → Bool) (a₁ a₂ : Nat → Bool)
    (h1l : l₁.loopback = false) (h1m : l₁.is_managed = false)
    (hids1 : (serverIds l₁.dns_servers).Nodup)
    (hb1 : ∀ e ∈ l₁.dns_servers, e.id < l₁.next_id)
    (hcd : (candKeys dns).Nodup)
    (hres1 : (bus_link_method_set_dns_servers_internal a₁ .granted (some dns) l₁).result =
      .success)
    (h2l : l₂.loopback = false) (h2m : l₂.is_managed = false)
    (hids2 : (domainIds l₂.search_domains).Nodup)
    (hb2 : ∀ e ∈ l₂.search_domains, e.id < l₂.next_id)
    (hnd : (ds.map Prod.fst).Nodup)
    (hres2 : (bus_link_method_set_domains validName isRoot a₂ .granted (some ds) l₂).result =
      .success) :
    serverKeys
        (bus_link_method_set_dns_servers_internal a₁ .granted (some dns) l₁).link.dns_servers =
      candKeys dns ∧
    domainPairs
        (bus_link_method_set_domains validName isRoot a₂ .granted (some ds) l₂).link.search_domains =
      ds := by
  have hv1 : verify_unmanaged_link l₁ = false := by
    simp [verify_unmanaged_link, h1l, h1m]
  have hv2 : verify_unmanaged_link l₂ = false := by
    simp [verify_unmanaged_link, h2l, h2m]
  constructor
  · cases hrec : dns_servers_reconcile a₁ (dns_server_mark_all l₁.dns_servers) dns
        l₁.next_id 0 with
    | none =>
      exfalso
      have hbad : (bus_link_method_set_dns_servers_internal a₁ .granted (some dns) l₁).result =
          .err .resourceExhausted := by
        simp [bus_link_method_set_dns_servers_internal, hv1, hrec]
      rw [hbad] at hres1
      cases hres1
    | some pr =>
      obtain ⟨l2, nid2⟩ := pr
      have hlink : (bus_link_method_set_dns_servers_internal a₁ .granted
          (some dns) l₁).link.dns_servers = dns_server_unlink_marked l2 := by
        simp [bus_link_method_set_dns_servers_internal, hv1, hrec]
      rw [hlink]
      have hrec' : dns_servers_reconcile a₁ (dns_server_mark_all l₁.dns_servers ++ []) dns
          l₁.next_id 0 = some (l2, nid2) := by
        rw [List.append_nil]
        exact hrec
      have hkeys := reconcile_nodup_keys a₁ dns (dns_server_mark_all l₁.dns_servers) []
        l₁.next_id 0 l2 nid2 hrec'
        (mark_all_marked l₁.dns_servers)
        (fun e he => absurd he (List.not_mem_nil e))
        (by rw [List.append_nil, mark_all_ids]; exact hids1)
        (by
          intro e he
          rw [List.append_nil] at he
          simp only [dns_server_mark_all, List.mem_map] at he
          obtain ⟨x, hx, rfl⟩ := he
          exact hb1 x hx)
        hcd
        (fun c _ e he => absurd he (List.not_mem_nil e))
      rw [hkeys]
      simp [serverKeys]
  · cases hval : set_domains_validate validName isRoot ds with
    | false =>
      exfalso
      have hbad : (bus_link_method_set_domains validName isRoot a₂ .granted
          (some ds) l₂).result = .err .invalidArg := by
        simp [bus_link_method_set_domains, hv2, hval]
      rw [hbad] at hres2
      cases hres2
    | true =>
      cases hrec : search_domains_reconcile a₂ (dns_search_domain_mark_all l₂.search_domains)
          ds l₂.next_id 0 with
      | none =>
        exfalso
        have hbad : (bus_link_method_set_domains validName isRoot a₂ .granted
            (some ds) l₂).result = .err .resourceExhausted := by
          simp [bus_link_method_set_domains, hv2, hval, hrec]
        rw [hbad] at hres2
        cases hres2
      | some pr =>
        obtain ⟨l2, nid2⟩ := pr
        have hlink : (bus_link_method_set_domains validName isRoot a₂ .granted
            (some ds) l₂).link.search_domains = dns_search_domain_unlink_marked l2 := by
          simp [bus_link_method_set_domains, hv2, hval, hrec]
        rw [hlink]
        have hrec' : search_domains_reconcile a₂
            (dns_search_domain_mark_all l₂.search_domains ++ []) ds l₂.next_id 0 =
            some (l2, nid2) := by
          rw [List.append_nil]
          exact hrec
        have hpairs := domains_reconcile_nodup a₂ ds
          (dns_search_domain_mark_all l₂.search_domains) [] l₂.next_id 0 l2 nid2 hrec'
          (by
            intro e he
            simp only [dns_search_domain_mark_all, List.mem_map] at he
            obtain ⟨x, hx, rfl⟩ := he
            rfl)
          (fun e he => absurd he (List.not_mem_nil e))
          (by
            rw [List.append_nil]
            have : domainIds (dns_search_domain_mark_all l₂.search_domains) =
                domainIds l₂.search_domains := by
              simp [domainIds, dns_search_domain_mark_all]
            rw [this]
            exact hids2)
          (by
            intro e he
            rw [List.append_nil] at he
            simp only [dns_search_domain_mark_all, List.mem_map] at he
            obtain ⟨x, hx, rfl⟩ := he
            exact hb2 x hx)
          hnd
          (fun c _ e he => absurd he (List.not_mem_nil e))
        rw [hpairs]
        simp [domainPairs]

/-- Witness for C10 at concrete duplicate-free batches. -/
theorem c10_witness :
    serverKeys (bus_link_method_set_dns_servers_internal (fun _ => true) .granted
        (some [demoAddr2, demoAddr]) demoLink).link.dns_servers =
      candKeys [demoAddr2, demoAddr] ∧
    domainPairs (bus_link_method_set_domains demoValidName demoIsRoot (fun _ => true) .granted
        (some [("b.example", true), ("a.example", false)]) demoLink).link.search_domains =
      [("b.example", true), ("a.example", false)] :=
  c10_replace_set_follows_candidate_order demoLink demoLink [demoAddr2, demoAddr]
    [("b.example", true), ("a.example", false)] demoValidName demoIsRoot
    (fun _ => true) (fun _ => true)
    (by decide) (by decide) (by decide) (by decide) (by decide) (by decide)
    (by decide) (by decide) (by decide) (by decide) (by decide) (by decide)

end Resolved

namespace Resolved

theorem any_id_iff (l : List DnsServer) (i : Nat) :
    (l.any fun s => s.id == i) = true ↔ i ∈ serverIds l := by
  rw [List.any_eq_true]
  constructor
  · rintro ⟨s, hs, hbeq⟩
    exact List.mem_map.mpr ⟨s, hs, by simpa using hbeq⟩
  · intro hmem
    obtain ⟨s, hs, hid⟩ := List.mem_map.mp hmem
    exact ⟨s, hs, by simpa using hid⟩

theorem update_current_stable {c : Option Nat} {F l3 : List DnsServer}
    (hperm : (serverIds l3).Perm (serverIds F)) :
    update_current (update_current c F) l3 = update_current c F := by
  cases c with
  | none => simp [update_current]
  | some i =>
    simp only [update_current]
    cases hF : F.any (fun s => s.id == i) with
    | false => simp
    | true =>
      have hiF : i ∈ serverIds F := (any_id_iff F i).mp hF
      have hil3 : i ∈ serverIds l3 := hperm.mem_iff.mpr hiF
      have hl3 : (l3.any fun s => s.id == i) = true := (any_id_iff l3 i).mpr hil3
      simp [hl3]

/-- C8: calling `SetDNS` twice in succession with the same candidate list —
given a successful first call — makes the second call succeed while matching
every candidate against an existing entry, creating none (the identity
counter does not move), removing none (the identities are a permutation),
and leaving any externally held current-server reference unchanged. -/
theorem c8_set_dns_idempotent
    (l : Link) (dns : List DnsAddr) (a₁ a₂ : Nat → Bool)
    (hl : l.loopback = false) (hm : l.is_managed = false)
    (hids : (serverIds l.dns_servers).Nodup)
    (hb : ∀ e ∈ l.dns_servers, e.id < l.next_id)
    (h1 : (bus_link_method_set_dns_servers_internal a₁ .granted (some dns) l).result =
      .success) :
    (bus_link_method_set_dns_servers_internal a₂ .granted (some dns)
        (bus_link_method_set_dns_servers_internal a₁ .granted (some dns) l).link).result =
      .success ∧
    (bus_link_method_set_dns_servers_internal a₂ .granted (some dns)
        (bus_link_method_set_dns_servers_internal a₁ .granted (some dns) l).link).link.next_id =
      (bus_link_method_set_dns_servers_internal a₁ .granted (some dns) l).link.next_id ∧
    (serverIds (bus_link_method_set_dns_servers_internal a₂ .granted (some dns)
        (bus_link_method_set_dns_servers_internal a₁ .granted
          (some dns) l).link).link.dns_servers).Perm
      (serverIds (bus_link_method_set_dns_servers_internal a₁ .granted
        (some dns) l).link.dns_servers) ∧
    (∀ c ∈ dns,
      (dns_server_find (bus_link_method_set_dns_servers_internal a₁ .granted
          (some dns) l).link.dns_servers c.family c.address c.server_name).isSome) ∧
    (bus_link_method_set_dns_servers_internal a₂ .granted (some dns)
        (bus_link_method_set_dns_servers_internal a₁ .granted
          (some dns) l).link).link.current_dns_server =
      (bus_link_method_set_dns_servers_internal a₁ .granted
        (some dns) l).link.current_dns_server := by
  have hv : verify_unmanaged_link l = false := by
    simp [verify_unmanaged_link, hl, hm]
  set L1 := (bus_link_method_set_dns_servers_internal a₁ .granted (some dns) l).link
    with hL1def
  cases hrec : dns_servers_reconcile a₁ (dns_server_mark_all l.dns_servers) dns
      l.next_id 0 with
  | none =>
    exfalso
    have hbad : (bus_link_method_set_dns_servers_internal a₁ .granted (some dns) l).result =
        .err .resourceExhausted := by
      simp [bus_link_method_set_dns_servers_internal, hv, hrec]
    rw [hbad] at h1
    cases h1
  | some pr =>
    obtain ⟨l2, nid2⟩ := pr
    have hL1 : L1 =
        { l with dns_servers := dns_server_unlink_marked l2, next_id := nid2,
                 current_dns_server :=
                   update_current l.current_dns_server (dns_server_unlink_marked l2) } := by
      rw [hL1def]
      simp [bus_link_method_set_dns_servers_internal, hv, hrec]
    have hrec' : dns_servers_reconcile a₁ (dns_server_mark_all l.dns_servers ++ []) dns
        l.next_id 0 = some (l2, nid2) := by
      rw [List.append_nil]
      exact hrec
    obtain ⟨p', s', hl2eq, hp', hs', hn', hb', hcount, hsat, hpers, hle⟩ :=
      reconcile_master1 a₁ dns (dns_server_mark_all l.dns_servers) [] l.next_id 0 l2 nid2
        hrec' (mark_all_marked l.dns_servers)
        (fun e he => absurd he (List.not_mem_nil e))
        (by rw [List.append_nil, mark_all_ids]; exact hids)
        (by
          intro e he
          rw [List.append_nil] at he
          simp only [dns_server_mark_all, List.mem_map] at he
          obtain ⟨x, hx, rfl⟩ := he
          exact hb x hx)
    have hFeq : dns_server_unlink_marked l2 = s' := by
      rw [hl2eq]
      exact unlink_marked_split p' s' hp' hs'
    have hFnodup : (serverIds (dns_server_unlink_marked l2)).Nodup := by
      have hsub : (dns_server_unlink_marked l2).Sublist l2 := by
        unfold dns_server_unlink_marked
        exact List.filter_sublist l2
      have hmap := hsub.map (fun s : DnsServer => s.id)
      exact hmap.nodup hn'
    have hsatF : ∀ c ∈ dns, c.key ∈ serverKeys (dns_server_unlink_marked l2) := by
      intro c hc
      rw [hFeq]
      exact hsat c hc
    have hcountF : ∀ k, keyCount k (serverKeys (dns_server_unlink_marked l2)) ≤
        keyCount k (candKeys dns) := by
      intro k
      rw [hFeq]
      have h0 : keyCount k (serverKeys ([] : List DnsServer)) = 0 := by
        simp [keyCount, serverKeys]
      have := hcount k
      omega
    obtain ⟨l3, hrec3, hunm3, hperm3⟩ :=
      reconcile_call2 a₂ dns (dns_server_mark_all (dns_server_unlink_marked l2)) [] nid2 0
        (mark_all_marked _)
        (fun e he => absurd he (List.not_mem_nil e))
        (by rw [List.append_nil, mark_all_ids]; exact hFnodup)
        (by
          intro c hc
          rw [List.append_nil, mark_all_keys]
          exact hsatF c hc)
        (by
          intro k
          rw [mark_all_keys]
          exact hcountF k)
    rw [List.append_nil] at hrec3 hperm3
    rw [mark_all_ids] at hperm3
    have hvL1 : verify_unmanaged_link L1 = false := by
      rw [hL1]
      simp [verify_unmanaged_link, hl, hm]
    have hrecL1 : dns_servers_reconcile a₂ (dns_server_mark_all L1.dns_servers) dns
        L1.next_id 0 = some (l3, nid2) := by
      rw [hL1]
      exact hrec3
    have hunl3 : dns_server_unlink_marked l3 = l3 := by
      apply List.filter_eq_self.mpr
      intro e he
      simp [hunm3 e he]
    have hL2r : (bus_link_method_set_dns_servers_internal a₂ .granted (some dns) L1).result =
        .success := by
      simp [bus_link_method_set_dns_servers_internal, hvL1, hrecL1]
    have hL2l : (bus_link_method_set_dns_servers_internal a₂ .granted (some dns) L1).link =
        { L1 with dns_servers := dns_server_unlink_marked l3, next_id := nid2, current_dns_server := update_current L1.current_dns_server (dns_server_unlink_marked l3) } := by
      simp [bus_link_method_set_dns_servers_internal, hvL1, hrecL1]
    refine ⟨hL2r, ?_, ?_, ?_, ?_⟩
    · rw [hL2l, hL1]
    · rw [hL2l, hunl3]
      have h4 : serverIds L1.dns_servers = serverIds (dns_server_unlink_marked l2) := by
        rw [hL1]
      rw [h4]
      exact hperm3
    · intro c hc
      have hkm : c.key ∈ serverKeys L1.dns_servers := by
        rw [hL1]
        exact hsatF c hc
      obtain ⟨e, hf⟩ := dns_server_find_isSome hkm
      rw [hf]
      rfl
    · rw [hL2l, hunl3, hL1]
      exact update_current_stable ((hunl3 ▸ hperm3 : (serverIds l3).Perm _))

/-- Witness for C8: the second identical `SetDNS` on the demo link succeeds. -/
theorem c8_witness :
    (bus_link_method_set_dns_servers_internal (fun _ => true) .granted
        (some [demoAddr2, demoAddr])
        (bus_link_method_set_dns_servers_internal (fun _ => true) .granted
          (some [demoAddr2, demoAddr]) demoLink).link).result = .success :=
  (c8_set_dns_idempotent demoLink [demoAddr2, demoAddr] (fun _ => true) (fun _ => true)
    (by decide) (by decide) (by decide) (by decide) (by decide)).1

end Resolved
